import Mathlib

/-
Verification of the electrode surface-trap potential library
(`electrode/electrode.py`) against its natural-language specification.

The development shallowly embeds the analytic kernels and the
pixel-electrode machinery:

* the point-source kernel `_point_value` (orders 0..5), one Lean
  definition per stored tensor component, written exactly as the
  closed-form rational expressions of the source;
* the polygon kernel `_polygon_value` at orders 0 and 1 (the orders the
  claims evaluate), with per-edge arctangent terms using the numpy
  `arctan2` convention;
* the cover-plane image summation `PixelElectrode.value`;
* the generator-style order dispatch (`if k in d: yield ...`) as lists
  of tagged tensors;
* the `optimize` pipeline over list matrices, with the third-party
  pseudo-inverse and convex solver treated as opaque parameters;
* the RF pseudopotential formulas of `PixelElectrode`;
* the pixel-factor defaults and the orientation functions.

Machine floats are modelled by `ℝ`; `numpy.arctan2` is total (it returns
`0` at `(0, 0)`), which is modelled by the total function `atan2` below.
-/

noncomputable section

open Real

/-- A 3-vector of reals, a row of the numpy arrays of the source. -/
structure V3 where
  x : ℝ
  y : ℝ
  z : ℝ

/-- Modelled from the spec: `utils.norm` (the `utils` module is not part of
the sources at hand).  The spec defines it as the Euclidean distance
`r = |x − p|`, used by `_point_value` and `_polygon_value`. -/
def nrm3 (x y z : ℝ) : ℝ := Real.sqrt (x^2 + y^2 + z^2)

/-- The numpy `arctan2(y, x)` convention, including `arctan2(0, 0) = 0`. -/
def atan2 (y x : ℝ) : ℝ :=
  if 0 < x then Real.arctan (y/x)
  else if x < 0 ∧ 0 ≤ y then Real.arctan (y/x) + Real.pi
  else if x < 0 ∧ y < 0 then Real.arctan (y/x) - Real.pi
  else if x = 0 ∧ 0 < y then Real.pi/2
  else if x = 0 ∧ y < 0 then -(Real.pi/2)
  else 0

/-- The numpy `sign` function. -/
def sgn (t : ℝ) : ℝ := if 0 < t then 1 else if t < 0 then -1 else 0

/-- Order-0 stored component of `_point_value`: `a * z/(2*pi*r**3)`. -/
def pk0 (a x y z : ℝ) : ℝ := a * z/(2*Real.pi*(nrm3 x y z)^3)

/-- Order-1 component 0 of `_point_value`: `-3*x*z` over `2*pi*r**5`. -/
def pk1c0 (a x y z : ℝ) : ℝ := a * (-3*x*z)/(2*Real.pi*(nrm3 x y z)^5)

/-- Order-1 component 1 of `_point_value`. -/
def pk1c1 (a x y z : ℝ) : ℝ := a * (-3*y*z)/(2*Real.pi*(nrm3 x y z)^5)

/-- Order-1 component 2 of `_point_value`: `r**2-3*z**2` over `2*pi*r**5`. -/
def pk1c2 (a x y z : ℝ) : ℝ := a * ((nrm3 x y z)^2-3*z^2)/(2*Real.pi*(nrm3 x y z)^5)

/-- Order-2 component 0 of `_point_value` (denominator `2*pi/3*r**7`). -/
def pk2c0 (a x y z : ℝ) : ℝ := a * (-((nrm3 x y z)^2-5*x^2)*z)/(2*Real.pi/3*(nrm3 x y z)^7)

/-- Order-2 component 1 of `_point_value`. -/
def pk2c1 (a x y z : ℝ) : ℝ := a * (5*x*y*z)/(2*Real.pi/3*(nrm3 x y z)^7)

/-- Order-2 component 2 of `_point_value`. -/
def pk2c2 (a x y z : ℝ) : ℝ := a * (-x*((nrm3 x y z)^2-5*z^2))/(2*Real.pi/3*(nrm3 x y z)^7)

/-- Order-2 component 3 of `_point_value`. -/
def pk2c3 (a x y z : ℝ) : ℝ := a * (-((nrm3 x y z)^2-5*y^2)*z)/(2*Real.pi/3*(nrm3 x y z)^7)

/-- Order-2 component 4 of `_point_value`. -/
def pk2c4 (a x y z : ℝ) : ℝ := a * (-y*((nrm3 x y z)^2-5*z^2))/(2*Real.pi/3*(nrm3 x y z)^7)

/-- Order-3 component 0 of `_point_value` (denominator `2*pi/3*r**9`). -/
def pk3c0 (a x y z : ℝ) : ℝ := a * (5*((nrm3 x y z)^2-7*x^2)*y*z)/(2*Real.pi/3*(nrm3 x y z)^9)

/-- Order-3 component 1 of `_point_value`. -/
def pk3c1 (a x y z : ℝ) : ℝ :=
  a * (4*x^4-y^4+3*y^2*z^2+4*z^4+3*x^2*(y^2-9*z^2))/(2*Real.pi/3*(nrm3 x y z)^9)

/-- Order-3 component 2 of `_point_value`. -/
def pk3c2 (a x y z : ℝ) : ℝ :=
  a * (-x^4+4*y^4-27*y^2*z^2+4*z^4+3*x^2*(y^2+z^2))/(2*Real.pi/3*(nrm3 x y z)^9)

/-- Order-3 component 3 of `_point_value`. -/
def pk3c3 (a x y z : ℝ) : ℝ := a * (5*x*((nrm3 x y z)^2-7*y^2)*z)/(2*Real.pi/3*(nrm3 x y z)^9)

/-- Order-3 component 4 of `_point_value`. -/
def pk3c4 (a x y z : ℝ) : ℝ := a * (5*x*z*(3*(x^2+y^2)-4*z^2))/(2*Real.pi/3*(nrm3 x y z)^9)

/-- Order-3 component 5 of `_point_value`. -/
def pk3c5 (a x y z : ℝ) : ℝ := a * (5*y*z*(3*(x^2+y^2)-4*z^2))/(2*Real.pi/3*(nrm3 x y z)^9)

/-- Order-3 component 6 of `_point_value`. -/
def pk3c6 (a x y z : ℝ) : ℝ := a * (5*x*y*((nrm3 x y z)^2-7*z^2))/(2*Real.pi/3*(nrm3 x y z)^9)

/-- Order-4 component 0 of `_point_value` (denominator `2*pi/15*r**11`). -/
def pk4c0 (a x y z : ℝ) : ℝ :=
  a * (-21*x*((nrm3 x y z)^2-3*x^2)*y*z)/(2*Real.pi/15*(nrm3 x y z)^11)

/-- Order-4 component 1 of `_point_value`. -/
def pk4c1 (a x y z : ℝ) : ℝ :=
  a * (-(x*(4*x^4+x^2*(y^2-41*z^2)-3*(y^2-6*z^2)*(y^2+z^2))))/(2*Real.pi/15*(nrm3 x y z)^11)

/-- Order-4 component 2 of `_point_value`. -/
def pk4c2 (a x y z : ℝ) : ℝ :=
  a * (z*(-6*x^4+51*x^2*y^2-6*y^4-5*(x^2+y^2)*z^2+z^4))/(2*Real.pi/15*(nrm3 x y z)^11)

/-- Order-4 component 3 of `_point_value`. -/
def pk4c3 (a x y z : ℝ) : ℝ :=
  a * (-(z*(18*x^4-3*y^4+y^2*z^2+4*z^4+x^2*(15*y^2-41*z^2))))/(2*Real.pi/15*(nrm3 x y z)^11)

/-- Order-4 component 4 of `_point_value`. -/
def pk4c4 (a x y z : ℝ) : ℝ :=
  a * (-21*x*y*((nrm3 x y z)^2-3*y^2)*z)/(2*Real.pi/15*(nrm3 x y z)^11)

/-- Order-4 component 5 of `_point_value`. -/
def pk4c5 (a x y z : ℝ) : ℝ :=
  a * (3*x*((x^2+y^2)^2-12*(x^2+y^2)*z^2+8*z^4))/(2*Real.pi/15*(nrm3 x y z)^11)

/-- Order-4 component 6 of `_point_value`. -/
def pk4c6 (a x y z : ℝ) : ℝ :=
  a * (-(y*(-3*x^4+4*y^4-41*y^2*z^2+18*z^4+x^2*(y^2+15*z^2))))/(2*Real.pi/15*(nrm3 x y z)^11)

/-- Order-4 component 7 of `_point_value`. -/
def pk4c7 (a x y z : ℝ) : ℝ :=
  a * (3*(x^2-6*y^2)*(x^2+y^2)*z-(x^2-41*y^2)*z^3-4*z^5)/(2*Real.pi/15*(nrm3 x y z)^11)

/-- Order-4 component 8 of `_point_value`. -/
def pk4c8 (a x y z : ℝ) : ℝ :=
  a * (3*y*((x^2+y^2)^2-12*(x^2+y^2)*z^2+8*z^4))/(2*Real.pi/15*(nrm3 x y z)^11)

/-- Order-5 component 0 of `_point_value` (denominator `2*pi/45*r**13`). -/
def pk5c0 (a x y z : ℝ) : ℝ :=
  a * (7*x*z*(2*x^4+8*y^4+7*y^2*z^2-z^4+x^2*(-23*y^2+z^2)))/(2*Real.pi/45*(nrm3 x y z)^13)

/-- Order-5 component 1 of `_point_value`. -/
def pk5c1 (a x y z : ℝ) : ℝ :=
  a * (7*x*y*(2*x^4-y^4+7*y^2*z^2+8*z^4+x^2*(y^2-23*z^2)))/(2*Real.pi/45*(nrm3 x y z)^13)

/-- Order-5 component 2 of `_point_value`. -/
def pk5c2 (a x y z : ℝ) : ℝ :=
  a * (21*x*z*(2*x^4-y^4+y^2*z^2+2*z^4+x^2*(y^2-7*z^2)))/(2*Real.pi/45*(nrm3 x y z)^13)

/-- Order-5 component 3 of `_point_value`. -/
def pk5c3 (a x y z : ℝ) : ℝ :=
  a * (7*y*z*(8*x^4-23*x^2*y^2+2*y^4+(7*x^2+y^2)*z^2-z^4))/(2*Real.pi/45*(nrm3 x y z)^13)

/-- Order-5 component 4 of `_point_value`. -/
def pk5c4 (a x y z : ℝ) : ℝ :=
  a * (-2*x^6-2*y^6+15*y^4*z^2+15*y^2*z^4-2*z^6+15*x^4*(y^2+z^2)
    +15*x^2*(y^4-12*y^2*z^2+z^4))/(2*Real.pi/45*(nrm3 x y z)^13)

/-- Order-5 component 5 of `_point_value`. -/
def pk5c5 (a x y z : ℝ) : ℝ :=
  a * (7*y*z*(8*x^4-y^4+y^2*z^2+2*z^4+x^2*(7*y^2-23*z^2)))/(2*Real.pi/45*(nrm3 x y z)^13)

/-- Order-5 component 6 of `_point_value`. -/
def pk5c6 (a x y z : ℝ) : ℝ :=
  a * (-((6*x^2-y^2)*(x^2+y^2)^2)+(101*x^2-11*y^2)*(x^2+y^2)*z^2
    -4*(29*x^2+y^2)*z^4+8*z^6)/(2*Real.pi/45*(nrm3 x y z)^13)

/-- Order-5 component 7 of `_point_value`. -/
def pk5c7 (a x y z : ℝ) : ℝ :=
  a * (-7*x*y*(x^4-2*y^4+23*y^2*z^2-8*z^4-x^2*(y^2+7*z^2)))/(2*Real.pi/45*(nrm3 x y z)^13)

/-- Order-5 component 8 of `_point_value`. -/
def pk5c8 (a x y z : ℝ) : ℝ :=
  a * (-7*x*z*(x^4-8*y^4+23*y^2*z^2-2*z^4-x^2*(7*y^2+z^2)))/(2*Real.pi/45*(nrm3 x y z)^13)

/-- Order-5 component 9 of `_point_value`. -/
def pk5c9 (a x y z : ℝ) : ℝ :=
  a * (21*y*z*(-x^4+2*y^4-7*y^2*z^2+2*z^4+x^2*(y^2+z^2)))/(2*Real.pi/45*(nrm3 x y z)^13)

/-- Order-5 component 10 of `_point_value`. -/
def pk5c10 (a x y z : ℝ) : ℝ :=
  a * ((x^2-6*y^2)*(x^2+y^2)^2+(-11*x^4+90*x^2*y^2+101*y^4)*z^2
    -4*(x^2+29*y^2)*z^4+8*z^6)/(2*Real.pi/45*(nrm3 x y z)^13)

/-- A derivative tensor in the compressed `2d+1`-component storage of the
kernels, tagged by its order. -/
inductive KTensor where
  | t0 (v : ℝ)
  | t1 (v : Fin 3 → ℝ)
  | t2 (v : Fin 5 → ℝ)
  | t3 (v : Fin 7 → ℝ)
  | t4 (v : Fin 9 → ℝ)
  | t5 (v : Fin 11 → ℝ)

/-- The derivative order a stored tensor belongs to. -/
def KTensor.ord : KTensor → ℕ
  | .t0 _ => 0
  | .t1 _ => 1
  | .t2 _ => 2
  | .t3 _ => 3
  | .t4 _ => 4
  | .t5 _ => 5

/-- Order-1 stored components of `_point_value` as a vector. -/
def pk1 (a x y z : ℝ) : Fin 3 → ℝ := fun i =>
  match i with
  | 0 => pk1c0 a x y z
  | 1 => pk1c1 a x y z
  | 2 => pk1c2 a x y z

/-- Order-2 stored components of `_point_value` as a vector. -/
def pk2 (a x y z : ℝ) : Fin 5 → ℝ := fun i =>
  match i with
  | 0 => pk2c0 a x y z
  | 1 => pk2c1 a x y z
  | 2 => pk2c2 a x y z
  | 3 => pk2c3 a x y z
  | 4 => pk2c4 a x y z

/-- Order-3 stored components of `_point_value` as a vector. -/
def pk3 (a x y z : ℝ) : Fin 7 → ℝ := fun i =>
  match i with
  | 0 => pk3c0 a x y z
  | 1 => pk3c1 a x y z
  | 2 => pk3c2 a x y z
  | 3 => pk3c3 a x y z
  | 4 => pk3c4 a x y z
  | 5 => pk3c5 a x y z
  | 6 => pk3c6 a x y z

/-- Order-4 stored components of `_point_value` as a vector. -/
def pk4 (a x y z : ℝ) : Fin 9 → ℝ := fun i =>
  match i with
  | 0 => pk4c0 a x y z
  | 1 => pk4c1 a x y z
  | 2 => pk4c2 a x y z
  | 3 => pk4c3 a x y z
  | 4 => pk4c4 a x y z
  | 5 => pk4c5 a x y z
  | 6 => pk4c6 a x y z
  | 7 => pk4c7 a x y z
  | 8 => pk4c8 a x y z

/-- Order-5 stored components of `_point_value` as a vector. -/
def pk5 (a x y z : ℝ) : Fin 11 → ℝ := fun i =>
  match i with
  | 0 => pk5c0 a x y z
  | 1 => pk5c1 a x y z
  | 2 => pk5c2 a x y z
  | 3 => pk5c3 a x y z
  | 4 => pk5c4 a x y z
  | 5 => pk5c5 a x y z
  | 6 => pk5c6 a x y z
  | 7 => pk5c7 a x y z
  | 8 => pk5c8 a x y z
  | 9 => pk5c9 a x y z
  | 10 => pk5c10 a x y z

/-- `_point_value(x, a, p, *d)` for a single point primitive `p` with area
weight `a` and a single field point `x`: the generator yields, for each
requested order in ascending order, the stored components evaluated at the
relative vector `p1 = x - p`. -/
def point_value (a : ℝ) (p fp : V3) (d : List ℕ) : List KTensor :=
  (if 0 ∈ d then [KTensor.t0 (pk0 a (fp.x-p.x) (fp.y-p.y) (fp.z-p.z))] else []) ++
  (if 1 ∈ d then [KTensor.t1 (pk1 a (fp.x-p.x) (fp.y-p.y) (fp.z-p.z))] else []) ++
  (if 2 ∈ d then [KTensor.t2 (pk2 a (fp.x-p.x) (fp.y-p.y) (fp.z-p.z))] else []) ++
  (if 3 ∈ d then [KTensor.t3 (pk3 a (fp.x-p.x) (fp.y-p.y) (fp.z-p.z))] else []) ++
  (if 4 ∈ d then [KTensor.t4 (pk4 a (fp.x-p.x) (fp.y-p.y) (fp.z-p.z))] else []) ++
  (if 5 ∈ d then [KTensor.t5 (pk5 a (fp.x-p.x) (fp.y-p.y) (fp.z-p.z))] else [])

/-- The order-0 per-edge term of `_polygon_value`: the signed-`|z|`
normalised arctangent of the source, for an edge running from vertex
`vw.1` to vertex `vw.2` seen from the field point `fp`. -/
def polygon_edge0 (fp : V3) (vw : V3 × V3) : ℝ :=
  let x1 := fp.x - vw.1.x
  let y1 := fp.y - vw.1.y
  let z := fp.z - vw.1.z
  let x2 := fp.x - vw.2.x
  let y2 := fp.y - vw.2.y
  let z2 := fp.z - vw.2.z
  let r1 := nrm3 x1 y1 z
  let r2 := nrm3 x2 y2 z2
  let zs := |z|
  atan2 (z*(x1*y2-y1*x2)) (zs*(r1*r2+x1*x2+y1*y2+zs*(zs+r1+r2)))

/-- Order-0 of `_polygon_value`: sum of the per-edge arctangent terms over
the edge list (each vertex paired with its cyclic successor, numpy
`roll(-1)`), divided by `pi`. -/
def polygonV0 (path : List V3) (fp : V3) : ℝ :=
  ((path.zip (path.rotate 1)).map (polygon_edge0 fp)).sum / Real.pi

/-- The order-1 per-edge vector term of `_polygon_value`. -/
def polygon_edge1 (fp : V3) (vw : V3 × V3) : Fin 3 → ℝ := fun i =>
  let x1 := fp.x - vw.1.x
  let y1 := fp.y - vw.1.y
  let z := fp.z - vw.1.z
  let x2 := fp.x - vw.2.x
  let y2 := fp.y - vw.2.y
  let z2 := fp.z - vw.2.z
  let r1 := nrm3 x1 y1 z
  let r2 := nrm3 x2 y2 z2
  let l2 := (x1-x2)^2+(y1-y2)^2
  (match i with
   | 0 => (-y1+y2)*z
   | 1 => (x1-x2)*z
   | 2 => x2*y1-x1*y2) * (r1+r2)/(r1*r2*((r1+r2)^2-l2))

/-- Order-1 of `_polygon_value`: edge sum of the vector terms over `pi`. -/
def polygonV1 (path : List V3) (fp : V3) : Fin 3 → ℝ := fun i =>
  ((path.zip (path.rotate 1)).map (fun e => polygon_edge1 fp e i)).sum / Real.pi

/-- `_polygon_value(x, p, *d)` for one path and one field point.  Orders 0
and 1 carry the transcribed closed forms; the rational per-edge numerators
of orders 2..5 (whose values no claim inspects) are supplied as opaque
component functions `g2..g5`, keeping the generator's order dispatch
faithful. -/
def polygon_value (g2 : List V3 → V3 → Fin 5 → ℝ) (g3 : List V3 → V3 → Fin 7 → ℝ)
    (g4 : List V3 → V3 → Fin 9 → ℝ) (g5 : List V3 → V3 → Fin 11 → ℝ)
    (path : List V3) (fp : V3) (d : List ℕ) : List KTensor :=
  (if 0 ∈ d then [KTensor.t0 (polygonV0 path fp)] else []) ++
  (if 1 ∈ d then [KTensor.t1 (polygonV1 path fp)] else []) ++
  (if 2 ∈ d then [KTensor.t2 (g2 path fp)] else []) ++
  (if 3 ∈ d then [KTensor.t3 (g3 path fp)] else []) ++
  (if 4 ∈ d then [KTensor.t4 (g4 path fp)] else []) ++
  (if 5 ∈ d then [KTensor.t5 (g5 path fp)] else [])

/-- An expanded (full Cartesian) tensor as returned by
`CoverElectrode.potential`, tagged by order. -/
inductive CTensor where
  | c0 (v : ℝ)
  | c1 (v : Fin 3 → ℝ)
  | c2 (v : Fin 3 → Fin 3 → ℝ)
  | c3 (v : Fin 3 → Fin 3 → Fin 3 → ℝ)
  | c4 (v : Fin 3 → Fin 3 → Fin 3 → Fin 3 → ℝ)
  | c5 (v : Fin 3 → Fin 3 → Fin 3 → Fin 3 → Fin 3 → ℝ)

/-- The derivative order of an expanded tensor. -/
def CTensor.ord : CTensor → ℕ
  | .c0 _ => 0
  | .c1 _ => 1
  | .c2 _ => 2
  | .c3 _ => 3
  | .c4 _ => 4
  | .c5 _ => 5

/-- `CoverElectrode.potential(x, *d)`: `x_z/cover_height` at order 0, the
constant gradient `(0, 0, 1/cover_height)` at order 1, and zero tensors at
orders 2..5, emitted in ascending order for the requested orders. -/
def cover_potential (cover_height : ℝ) (fp : V3) (d : List ℕ) : List CTensor :=
  (if 0 ∈ d then [CTensor.c0 (fp.z/cover_height)] else []) ++
  (if 1 ∈ d then [CTensor.c1 (fun i => match i with
    | 2 => 1/cover_height
    | _ => 0)] else []) ++
  (if 2 ∈ d then [CTensor.c2 (fun _ _ => 0)] else []) ++
  (if 3 ∈ d then [CTensor.c3 (fun _ _ _ => 0)] else []) ++
  (if 4 ∈ d then [CTensor.c4 (fun _ _ _ _ => 0)] else []) ++
  (if 5 ∈ d then [CTensor.c5 (fun _ _ _ _ _ => 0)] else [])

/-- Entrywise addition of equally-shaped stored tensors (the numpy
`r[i] += ri`); mismatched shapes never arise for aligned order lists and
keep the left operand. -/
def KTensor.add : KTensor → KTensor → KTensor
  | .t0 v, .t0 w => .t0 (v+w)
  | .t1 v, .t1 w => .t1 (fun i => v i + w i)
  | .t2 v, .t2 w => .t2 (fun i => v i + w i)
  | .t3 v, .t3 w => .t3 (fun i => v i + w i)
  | .t4 v, .t4 w => .t4 (fun i => v i + w i)
  | .t5 v, .t5 w => .t5 (fun i => v i + w i)
  | v, _ => v

/-- In-place accumulation `for i, ri in enumerate(new): r[i] += ri` of one
image contribution into the running list. -/
def addInto (r s : List KTensor) : List KTensor :=
  (List.zipWith KTensor.add r s) ++ r.drop s.length

/-- The image indices `range(-nmax, 0) + range(1, nmax+1)` of
`PixelElectrode.value`. -/
def imageNs (nmax : ℕ) : List ℤ :=
  ((List.range nmax).map (fun i : ℕ => -(nmax:ℤ) + (i:ℤ))) ++
  ((List.range nmax).map (fun i : ℕ => (i:ℤ)+1))

/-- Displacement of a field point by `(0, 0, c)`. -/
def zshift (fp : V3) (c : ℝ) : V3 := ⟨fp.x, fp.y, fp.z + c⟩

/-- `PixelElectrode.value(x, *d)`: the bare kernel `value_no_cover` at `x`
plus, for each image index `n`, the bare kernel at `x + (0, 0,
2*n*cover_height)`, accumulated entrywise over the returned order list. -/
def pixel_value (vnc : V3 → List KTensor) (cover_height : ℝ) (nmax : ℕ) (fp : V3) :
    List KTensor :=
  (imageNs nmax).foldl
    (fun r (n : ℤ) => addInto r (vnc (zshift fp (2*(n:ℝ)*cover_height)))) (vnc fp)

/-- Dot product of two real vectors (`numpy` row times column). -/
def dotl (v w : List ℝ) : ℝ := (List.zipWith (fun a b => a * b) v w).sum

/-- Row vector times matrix: `(v*M)_j = sum_i v_i M_ij`. -/
def rowVecMul (v : List ℝ) (M : List (List ℝ)) : List ℝ :=
  M.transpose.map (dotl v)

/-- The rank-one matrix `b.T*g/s` of `optimize` (outer product over a
scalar). -/
def outerDiv (b g : List ℝ) (s : ℝ) : List (List ℝ) :=
  b.map (fun bi => g.map (fun gj => bi*gj/s))

/-- Entrywise matrix difference. -/
def matSub (A B : List (List ℝ)) : List (List ℝ) :=
  List.zipWith (fun r s => List.zipWith (fun a b => a - b) r s) A B

/-- A constraint handed to the convex solver: either a caller-supplied
constraint or the equality constraint `M*p == 0` appended by `optimize`. -/
inductive OptCtr (α : Type) where
  | user (c : α)
  | eqZero (M : List (List ℝ))

/-- One `Constraint` object: its objective rows `(row, target)` and its
solver constraints for the given electrode, as collected by `optimize`. -/
structure OptConstraint (α : Type) where
  objective : List (List ℝ × ℝ)
  constraints : List α

/-- `PixelElectrode.optimize(constraints)` on its non-degenerate path
(at least one objective row, so every numpy operation succeeds and the
list-matrix arithmetic is shape-correct).  The numpy Moore–Penrose
pseudo-inverse and the cvxopt solver (which maximises the objective
`g*p` subject to the accumulated constraints) are third-party black
boxes, passed in as `pinv` and `solver`.  The degenerate zero-row case,
where numpy raises, is covered by the shape-checked `optimizeE` below. -/
def optimize {α : Type} (pinv : List (List ℝ) → List (List ℝ))
    (solver : List ℝ → List (OptCtr α) → List ℝ)
    (cs : List (OptConstraint α)) : List ℝ × ℝ :=
  let obj := (cs.map (fun c => c.objective)).flatten
  let ctrs := (cs.map (fun c => c.constraints)).flatten
  let B := obj.map Prod.fst
  let b := obj.map Prod.snd
  let g := rowVecMul b (pinv B).transpose
  let B1 := matSub B (outerDiv b g (dotl g g))
  let B1d := B1.dropLast
  let p := solver g (ctrs.map OptCtr.user ++ [OptCtr.eqZero B1d])
  (p, dotl p g / dotl g g)

/-- `PointPixelElectrode._areas_default`: ones, one per point. -/
def point_areas_default (points : List V3) : List ℝ := points.map (fun _ => 1)

/-- `PointPixelElectrode._pixel_factors_default`: ones shaped like the
area vector. -/
def point_pixel_factors_default (areas : List ℝ) : List ℝ := areas.map (fun _ => 1)

/-- `PolygonPixelElectrode._pixel_factors_default`: ones, one per path. -/
def polygon_pixel_factors_default (paths : List (List V3)) : List ℝ :=
  paths.map (fun _ => 1)

/-- Modelled from the spec: the signed planar (shoelace) area of a path,
the area part of the missing `utils.area_centroid`. -/
def path_area (path : List V3) : ℝ :=
  ((path.zip (path.rotate 1)).map (fun vw => vw.1.x*vw.2.y - vw.1.y*vw.2.x)).sum / 2

/-- `PointPixelElectrode.orientations`: ones shaped like the area vector. -/
def point_orientations (areas : List ℝ) : List ℝ := areas.map (fun _ => 1)

/-- `PolygonPixelElectrode.orientations`: the sign of the bare order-0
value at the probe point `(0, 0, 1)`, one entry per path. -/
def polygon_orientations (paths : List (List V3)) : List ℝ :=
  paths.map (fun p => sgn (polygonV0 p ⟨0, 0, 1⟩))

/-- A pixel electrode as seen by the RF pseudopotential methods: the RF
voltage amplitude and the expanded order-1..3 results of
`self.potential`. -/
structure RfModel where
  voltage_rf : ℝ
  pot1 : V3 → Fin 3 → ℝ
  pot2 : V3 → Fin 3 → Fin 3 → ℝ
  pot3 : V3 → Fin 3 → Fin 3 → Fin 3 → ℝ

/-- An expanded tensor entry of `PixelElectrode.potential` for orders
1..3. -/
inductive PTensor where
  | o1 (v : Fin 3 → ℝ)
  | o2 (v : Fin 3 → Fin 3 → ℝ)
  | o3 (v : Fin 3 → Fin 3 → Fin 3 → ℝ)

/-- `PixelElectrode.potential(x, *d)` restricted to orders 1..3 (the
orders the pseudopotential methods request): one expanded tensor per
requested order, ascending. -/
def mpotential (M : RfModel) (fp : V3) (d : List ℕ) : List PTensor :=
  (if 1 ∈ d then [PTensor.o1 (M.pot1 fp)] else []) ++
  (if 2 ∈ d then [PTensor.o2 (M.pot2 fp)] else []) ++
  (if 3 ∈ d then [PTensor.o3 (M.pot3 fp)] else [])

/-- `PixelElectrode.pseudo_potential(x)`: unpack `e, = potential(x, 1)`
and return `voltage_rf**2*(e**2).sum(axis=0)`. -/
def pseudo_potential (M : RfModel) (fp : V3) : ℝ :=
  match mpotential M fp [1] with
  | [PTensor.o1 e] => M.voltage_rf^2 * ∑ i, (e i)^2
  | _ => 0

/-- `PixelElectrode.pseudo_gradient(x)`: unpack `e, g = potential(x, 1, 2)`
and return `voltage_rf**2*2*(e[:, None]*g).sum(axis=0)`. -/
def pseudo_gradient (M : RfModel) (fp : V3) : Fin 3 → ℝ :=
  match mpotential M fp [1, 2] with
  | [PTensor.o1 e, PTensor.o2 g] => fun j => M.voltage_rf^2*2* ∑ i, e i * g i j
  | _ => fun _ => 0

/-- `PixelElectrode.pseudo_curvature(x)`: unpack
`e, g, c = potential(x, 1, 2, 3)` and return
`voltage_rf**2*2*(g[:, :, None]*g[:, None, :]+e[:, None, None]*c).sum(axis=0)`. -/
def pseudo_curvature (M : RfModel) (fp : V3) : Fin 3 → Fin 3 → ℝ :=
  match mpotential M fp [1, 2, 3] with
  | [PTensor.o1 e, PTensor.o2 g, PTensor.o3 c] =>
      fun j k => M.voltage_rf^2*2* ∑ i, (g i j * g i k + e i * c i j k)
  | _ => fun _ _ => 0

/-- A numpy 2-D matrix with explicit shape, as handled by `optimize`:
`np.matrix` values carry `(rows, cols)` and raise shape errors, which the
list-matrix model of `optimize` cannot express. -/
structure NMat where
  rows : ℕ
  cols : ℕ
  entry : ℕ → ℕ → ℝ

/-- The numpy error kinds the `optimize` pipeline can raise: `LinAlgError`
from `np.linalg` (`pinv`/`svd` reject the empty matrix) and `ValueError`
from a shape mismatch in a matrix operation. -/
inductive NpError where
  | linAlgError
  | valueError
deriving DecidableEq

/-- `np.matrix(list_of_rows)`: the empty list gives the `(1, 0)`-shaped
`np.matrix([])`; otherwise the shape is `(len(rows), len(rows[0]))`. -/
def npMatrix (rs : List (List ℝ)) : NMat :=
  match rs with
  | [] => ⟨1, 0, fun _ _ => 0⟩
  | r :: _ => ⟨rs.length, r.length, fun i j => (rs.getD i []).getD j 0⟩

/-- `np.matrix(list_of_scalars)`: shape `(1, len)`, and `(1, 0)` when
empty - the shape of `b` in `optimize`. -/
def npRowMatrix (v : List ℝ) : NMat := ⟨1, v.length, fun _ j => v.getD j 0⟩

/-- `np.matrix(column_value)` for the solver's primal solution `p.value`. -/
def npColMatrix (v : List ℝ) : NMat := ⟨v.length, 1, fun i _ => v.getD i 0⟩

/-- numpy matrix transposition `.T`. -/
def NMat.transposeE (M : NMat) : NMat := ⟨M.cols, M.rows, fun i j => M.entry j i⟩

/-- The numpy matrix product `A*B`: a `ValueError` when the inner
dimensions disagree. -/
def matMulE (A B : NMat) : Except NpError NMat :=
  if A.cols = B.rows then
    Except.ok ⟨A.rows, B.cols, fun i j => ∑ k ∈ Finset.range A.cols, A.entry i k * B.entry k j⟩
  else Except.error NpError.valueError

/-- The numpy matrix difference `A - B`: a shape error unless the shapes
agree (the broadcasts `optimize` relies on have equal shapes). -/
def matSubE (A B : NMat) : Except NpError NMat :=
  if A.rows = B.rows ∧ A.cols = B.cols then
    Except.ok ⟨A.rows, A.cols, fun i j => A.entry i j - B.entry i j⟩
  else Except.error NpError.valueError

/-- Division of a matrix by a `(1, 1)` matrix, numpy broadcasting of
`... / (g*g.T)`. -/
def divByScalarM (A S : NMat) : NMat := ⟨A.rows, A.cols, fun i j => A.entry i j / S.entry 0 0⟩

/-- The row slice `B1[:-1]`. -/
def dropLastRow (M : NMat) : NMat := ⟨M.rows - 1, M.cols, M.entry⟩

/-- A solver constraint of the shape-checked pipeline: a caller-supplied
constraint or the appended equality `M*p == 0`. -/
inductive OptCtrE (α : Type) where
  | user (c : α)
  | eqZero (M : NMat)

/-- `PixelElectrode.optimize(constraints)` over shape-checked numpy
matrices: every matrix operation of lines 193-223 can raise, and a raise
at any step aborts the pipeline before the convex solver runs.  `pinv` is
the third-party `np.linalg.pinv`, fallible (it rejects the empty matrix
with a `LinAlgError` in the numpy generation this source targets). -/
def optimizeE {α : Type} (pinv : NMat → Except NpError NMat)
    (solver : NMat → List (OptCtrE α) → List ℝ)
    (cs : List (OptConstraint α)) : Except NpError (List ℝ × ℝ) := do
  let obj := (cs.map (fun c => c.objective)).flatten
  let ctrs := (cs.map (fun c => c.constraints)).flatten
  let B := npMatrix (obj.map Prod.fst)
  let b := npRowMatrix (obj.map Prod.snd)
  let Bp ← pinv B
  let g ← matMulE b Bp.transposeE
  let ggT ← matMulE g g.transposeE
  let bTg ← matMulE b.transposeE g
  let B1 ← matSubE B (divByScalarM bTg ggT)
  let B1d := dropLastRow B1
  let p := solver g (ctrs.map OptCtrE.user ++ [OptCtrE.eqZero B1d])
  let cNum ← matMulE (npColMatrix p).transposeE g.transposeE
  Except.ok (p, (divByScalarM cNum ggT).entry 0 0)

end

lemma sqrt_odd_pow (u : ℝ) (hu : 0 ≤ u) (m : ℕ) :
    (Real.sqrt u)^(2*m+3) = u^(m+1) * Real.sqrt u := by
  have h2 : (Real.sqrt u)^2 = u := Real.sq_sqrt hu
  calc (Real.sqrt u)^(2*m+3) = ((Real.sqrt u)^2)^(m+1) * Real.sqrt u := by ring
  _ = u^(m+1) * Real.sqrt u := by rw [h2]

lemma kernel_step (m : ℕ) (c x K target : ℝ) (a0 a1 a2 a3 a4 a5 : ℝ) (f : ℝ → ℝ)
    (hc : 0 ≤ c) (hs : x^2 + c ≠ 0)
    (hf : ∀ t, f t = K * ((a0 + a1*t + a2*t^2 + a3*t^3 + a4*t^4 + a5*t^5) /
      ((t^2+c)^(m+1) * Real.sqrt (t^2+c))))
    (ht : target = K * (((a1 + 2*a2*x + 3*a3*x^2 + 4*a4*x^3 + 5*a5*x^4)*(x^2+c)
        - (2*(m:ℝ)+3) * x * (a0 + a1*x + a2*x^2 + a3*x^3 + a4*x^4 + a5*x^5)) /
      ((x^2+c)^(m+2) * Real.sqrt (x^2+c)))) :
    HasDerivAt f target x := by
  have hs' : 0 < x^2 + c := lt_of_le_of_ne (by positivity) (Ne.symm hs)
  have hsq : HasDerivAt (fun t : ℝ => t^2 + c) (2*x) x := by
    simpa using (hasDerivAt_pow 2 x).add_const c
  have hP : HasDerivAt (fun t : ℝ => a0 + a1*t + a2*t^2 + a3*t^3 + a4*t^4 + a5*t^5)
      (a1 + 2*a2*x + 3*a3*x^2 + 4*a4*x^3 + 5*a5*x^4) x := by
    have H := ((((((hasDerivAt_const x a0).add ((hasDerivAt_id x).const_mul a1)).add
      ((hasDerivAt_pow 2 x).const_mul a2)).add
      ((hasDerivAt_pow 3 x).const_mul a3)).add
      ((hasDerivAt_pow 4 x).const_mul a4)).add
      ((hasDerivAt_pow 5 x).const_mul a5))
    convert H using 1
    push_cast
    ring
  have hpow : HasDerivAt (fun t : ℝ => (t^2+c)^(m+1)) ((m+1) * (x^2+c)^m * (2*x)) x := by
    simpa using hsq.pow (m+1)
  have hsqrt : HasDerivAt (fun t : ℝ => Real.sqrt (t^2+c))
      (1/(2*Real.sqrt (x^2+c)) * (2*x)) x :=
    (Real.hasDerivAt_sqrt (ne_of_gt hs')).comp x hsq
  have hden := hpow.mul hsqrt
  have hden_ne : (x^2+c)^(m+1) * Real.sqrt (x^2+c) ≠ 0 := by positivity
  have hdiv := (hP.div hden hden_ne).const_mul K
  refine HasDerivAt.congr_of_eventuallyEq ?_ (Filter.Eventually.of_forall hf)
  rw [ht]
  convert hdiv using 2
  have hw0 : Real.sqrt (x^2+c) ≠ 0 := by positivity
  set w := Real.sqrt (x^2+c) with hwdef
  rw [show x^2+c = w^2 from (Real.sq_sqrt hs'.le).symm]
  field_simp
  ring

lemma div_shape2 (m : ℕ) (a C K N P u : ℝ) (hu : 0 ≤ u) (hC : C ≠ 0)
    (hNP : a * N = C * K * P) :
    a * N / (C * (Real.sqrt u)^(2*m+3)) = K * (P / (u^(m+1) * Real.sqrt u)) := by
  rw [sqrt_odd_pow u hu m, hNP, mul_assoc]
  rw [mul_div_mul_left _ _ hC, mul_div_assoc]

lemma cpi1 (a : ℝ) : 2*Real.pi*(a/(2*Real.pi)) = a := by
  have h : (2*Real.pi) ≠ 0 := by positivity
  field_simp

lemma cpi2 (a : ℝ) : 2*Real.pi/3*(a/(2*Real.pi)) = a/3 := by
  have h : (2*Real.pi) ≠ 0 := by positivity
  field_simp
  ring

lemma cpi3 (a : ℝ) : 2*Real.pi/3*(3*a/(2*Real.pi)) = a := by
  have h : (2*Real.pi) ≠ 0 := by positivity
  field_simp
  ring

lemma cpi4 (a : ℝ) : 2*Real.pi/15*(3*a/(2*Real.pi)) = a/5 := by
  have h : (2*Real.pi) ≠ 0 := by positivity
  field_simp
  ring

lemma cpi5 (a : ℝ) : 2*Real.pi/15*(15*a/(2*Real.pi)) = a := by
  have h : (2*Real.pi) ≠ 0 := by positivity
  field_simp
  ring

lemma cpi6 (a : ℝ) : 2*Real.pi/45*(15*a/(2*Real.pi)) = a/3 := by
  have h : (2*Real.pi) ≠ 0 := by positivity
  field_simp
  ring


lemma d_pk1c0 (a x y z : ℝ) (h : x^2 + (y^2+z^2) ≠ 0) :
    HasDerivAt (fun t => pk0 a t y z) (pk1c0 a x y z) x := by
  refine kernel_step 0 (y^2+z^2) x (a/(2*Real.pi)) _ z 0 0 0 0 0 _
    (by positivity) h ?_ ?_
  · intro t
    unfold pk0 nrm3
    have hu : (0:ℝ) ≤ t^2+(y^2+z^2) := by positivity
    rw [show t^2+y^2+z^2 = t^2+(y^2+z^2) from by ring]
    exact div_shape2 0 a (2*Real.pi) _ _ _ _ hu (by positivity) (by rw [cpi1]; ring)
  · unfold pk1c0 nrm3
    have hu : (0:ℝ) ≤ x^2+(y^2+z^2) := by positivity
    rw [show x^2+y^2+z^2 = x^2+(y^2+z^2) from by ring]
    exact div_shape2 1 a (2*Real.pi) _ _ _ _ hu (by positivity)
      (by rw [cpi1]; push_cast; ring)

lemma d_pk1c1 (a x y z : ℝ) (h : y^2 + (x^2+z^2) ≠ 0) :
    HasDerivAt (fun t => pk0 a x t z) (pk1c1 a x y z) y := by
  refine kernel_step 0 (x^2+z^2) y (a/(2*Real.pi)) _ z 0 0 0 0 0 _
    (by positivity) h ?_ ?_
  · intro t
    unfold pk0 nrm3
    have hu : (0:ℝ) ≤ t^2+(x^2+z^2) := by positivity
    rw [show x^2+t^2+z^2 = t^2+(x^2+z^2) from by ring]
    exact div_shape2 0 a (2*Real.pi) _ _ _ _ hu (by positivity) (by rw [cpi1]; ring)
  · unfold pk1c1 nrm3
    have hu : (0:ℝ) ≤ y^2+(x^2+z^2) := by positivity
    rw [show x^2+y^2+z^2 = y^2+(x^2+z^2) from by ring]
    exact div_shape2 1 a (2*Real.pi) _ _ _ _ hu (by positivity)
      (by rw [cpi1]; push_cast; ring)

lemma d_pk1c2 (a x y z : ℝ) (h : z^2 + (x^2+y^2) ≠ 0) :
    HasDerivAt (fun t => pk0 a x y t) (pk1c2 a x y z) z := by
  refine kernel_step 0 (x^2+y^2) z (a/(2*Real.pi)) _ 0 1 0 0 0 0 _
    (by positivity) h ?_ ?_
  · intro t
    unfold pk0 nrm3
    have hu : (0:ℝ) ≤ t^2+(x^2+y^2) := by positivity
    rw [show x^2+y^2+t^2 = t^2+(x^2+y^2) from by ring]
    exact div_shape2 0 a (2*Real.pi) _ _ _ _ hu (by positivity) (by rw [cpi1]; ring)
  · unfold pk1c2 nrm3
    have hu : (0:ℝ) ≤ z^2+(x^2+y^2) := by positivity
    rw [show x^2+y^2+z^2 = z^2+(x^2+y^2) from by ring]
    rw [Real.sq_sqrt hu]
    exact div_shape2 1 a (2*Real.pi) _ _ _ _ hu (by positivity)
      (by rw [cpi1]; push_cast; ring)

lemma d_pk2c0 (a x y z : ℝ) (h : x^2 + (y^2+z^2) ≠ 0) :
    HasDerivAt (fun t => pk1c0 a t y z) (pk2c0 a x y z) x := by
  refine kernel_step 1 (y^2+z^2) x (a/(2*Real.pi)) _ 0 (-3*z) 0 0 0 0 _
    (by positivity) h ?_ ?_
  · intro t
    unfold pk1c0 nrm3
    have hu : (0:ℝ) ≤ t^2+(y^2+z^2) := by positivity
    rw [show t^2+y^2+z^2 = t^2+(y^2+z^2) from by ring]
    exact div_shape2 1 a (2*Real.pi) _ _ _ _ hu (by positivity) (by rw [cpi1]; ring)
  · unfold pk2c0 nrm3
    have hu : (0:ℝ) ≤ x^2+(y^2+z^2) := by positivity
    rw [show x^2+y^2+z^2 = x^2+(y^2+z^2) from by ring]
    rw [Real.sq_sqrt hu]
    exact div_shape2 2 a (2*Real.pi/3) _ _ _ _ hu (by positivity)
      (by rw [cpi2]; push_cast; ring)

lemma d_pk2c1 (a x y z : ℝ) (h : y^2 + (x^2+z^2) ≠ 0) :
    HasDerivAt (fun t => pk1c0 a x t z) (pk2c1 a x y z) y := by
  refine kernel_step 1 (x^2+z^2) y (a/(2*Real.pi)) _ (-3*x*z) 0 0 0 0 0 _
    (by positivity) h ?_ ?_
  · intro t
    unfold pk1c0 nrm3
    have hu : (0:ℝ) ≤ t^2+(x^2+z^2) := by positivity
    rw [show x^2+t^2+z^2 = t^2+(x^2+z^2) from by ring]
    exact div_shape2 1 a (2*Real.pi) _ _ _ _ hu (by positivity) (by rw [cpi1]; ring)
  · unfold pk2c1 nrm3
    have hu : (0:ℝ) ≤ y^2+(x^2+z^2) := by positivity
    rw [show x^2+y^2+z^2 = y^2+(x^2+z^2) from by ring]
    exact div_shape2 2 a (2*Real.pi/3) _ _ _ _ hu (by positivity)
      (by rw [cpi2]; push_cast; ring)

lemma d_pk2c2 (a x y z : ℝ) (h : z^2 + (x^2+y^2) ≠ 0) :
    HasDerivAt (fun t => pk1c0 a x y t) (pk2c2 a x y z) z := by
  refine kernel_step 1 (x^2+y^2) z (a/(2*Real.pi)) _ 0 (-3*x) 0 0 0 0 _
    (by positivity) h ?_ ?_
  · intro t
    unfold pk1c0 nrm3
    have hu : (0:ℝ) ≤ t^2+(x^2+y^2) := by positivity
    rw [show x^2+y^2+t^2 = t^2+(x^2+y^2) from by ring]
    exact div_shape2 1 a (2*Real.pi) _ _ _ _ hu (by positivity) (by rw [cpi1]; ring)
  · unfold pk2c2 nrm3
    have hu : (0:ℝ) ≤ z^2+(x^2+y^2) := by positivity
    rw [show x^2+y^2+z^2 = z^2+(x^2+y^2) from by ring]
    rw [Real.sq_sqrt hu]
    exact div_shape2 2 a (2*Real.pi/3) _ _ _ _ hu (by positivity)
      (by rw [cpi2]; push_cast; ring)

lemma d_pk2c3 (a x y z : ℝ) (h : y^2 + (x^2+z^2) ≠ 0) :
    HasDerivAt (fun t => pk1c1 a x t z) (pk2c3 a x y z) y := by
  refine kernel_step 1 (x^2+z^2) y (a/(2*Real.pi)) _ 0 (-3*z) 0 0 0 0 _
    (by positivity) h ?_ ?_
  · intro t
    unfold pk1c1 nrm3
    have hu : (0:ℝ) ≤ t^2+(x^2+z^2) := by positivity
    rw [show x^2+t^2+z^2 = t^2+(x^2+z^2) from by ring]
    exact div_shape2 1 a (2*Real.pi) _ _ _ _ hu (by positivity) (by rw [cpi1]; ring)
  · unfold pk2c3 nrm3
    have hu : (0:ℝ) ≤ y^2+(x^2+z^2) := by positivity
    rw [show x^2+y^2+z^2 = y^2+(x^2+z^2) from by ring]
    rw [Real.sq_sqrt hu]
    exact div_shape2 2 a (2*Real.pi/3) _ _ _ _ hu (by positivity)
      (by rw [cpi2]; push_cast; ring)

lemma d_pk2c4 (a x y z : ℝ) (h : z^2 + (x^2+y^2) ≠ 0) :
    HasDerivAt (fun t => pk1c1 a x y t) (pk2c4 a x y z) z := by
  refine kernel_step 1 (x^2+y^2) z (a/(2*Real.pi)) _ 0 (-3*y) 0 0 0 0 _
    (by positivity) h ?_ ?_
  · intro t
    unfold pk1c1 nrm3
    have hu : (0:ℝ) ≤ t^2+(x^2+y^2) := by positivity
    rw [show x^2+y^2+t^2 = t^2+(x^2+y^2) from by ring]
    exact div_shape2 1 a (2*Real.pi) _ _ _ _ hu (by positivity) (by rw [cpi1]; ring)
  · unfold pk2c4 nrm3
    have hu : (0:ℝ) ≤ z^2+(x^2+y^2) := by positivity
    rw [show x^2+y^2+z^2 = z^2+(x^2+y^2) from by ring]
    rw [Real.sq_sqrt hu]
    exact div_shape2 2 a (2*Real.pi/3) _ _ _ _ hu (by positivity)
      (by rw [cpi2]; push_cast; ring)

lemma d_pk3c0 (a x y z : ℝ) (h : y^2 + (x^2+z^2) ≠ 0) :
    HasDerivAt (fun t => pk2c0 a x t z) (pk3c0 a x y z) y := by
  refine kernel_step 2 (x^2+z^2) y (3*a/(2*Real.pi)) _ (-(z^2-4*x^2)*z) 0 (-z) 0 0 0 _
    (by positivity) h ?_ ?_
  · intro t
    unfold pk2c0 nrm3
    have hu : (0:ℝ) ≤ t^2+(x^2+z^2) := by positivity
    rw [show x^2+t^2+z^2 = t^2+(x^2+z^2) from by ring]
    rw [Real.sq_sqrt hu]
    exact div_shape2 2 a (2*Real.pi/3) _ _ _ _ hu (by positivity) (by rw [cpi3]; ring)
  · unfold pk3c0 nrm3
    have hu : (0:ℝ) ≤ y^2+(x^2+z^2) := by positivity
    rw [show x^2+y^2+z^2 = y^2+(x^2+z^2) from by ring]
    rw [Real.sq_sqrt hu]
    exact div_shape2 3 a (2*Real.pi/3) _ _ _ _ hu (by positivity)
      (by rw [cpi3]; push_cast; ring)

lemma d_pk3c1 (a x y z : ℝ) (h : z^2 + (x^2+y^2) ≠ 0) :
    HasDerivAt (fun t => pk2c0 a x y t) (pk3c1 a x y z) z := by
  refine kernel_step 2 (x^2+y^2) z (3*a/(2*Real.pi)) _ 0 (-(y^2-4*x^2)) 0 (-1) 0 0 _
    (by positivity) h ?_ ?_
  · intro t
    unfold pk2c0 nrm3
    have hu : (0:ℝ) ≤ t^2+(x^2+y^2) := by positivity
    rw [show x^2+y^2+t^2 = t^2+(x^2+y^2) from by ring]
    rw [Real.sq_sqrt hu]
    exact div_shape2 2 a (2*Real.pi/3) _ _ _ _ hu (by positivity) (by rw [cpi3]; ring)
  · unfold pk3c1 nrm3
    have hu : (0:ℝ) ≤ z^2+(x^2+y^2) := by positivity
    rw [show x^2+y^2+z^2 = z^2+(x^2+y^2) from by ring]
    exact div_shape2 3 a (2*Real.pi/3) _ _ _ _ hu (by positivity)
      (by rw [cpi3]; push_cast; ring)

lemma d_pk3c2 (a x y z : ℝ) (h : z^2 + (x^2+y^2) ≠ 0) :
    HasDerivAt (fun t => pk2c3 a x y t) (pk3c2 a x y z) z := by
  refine kernel_step 2 (x^2+y^2) z (3*a/(2*Real.pi)) _ 0 (-(x^2-4*y^2)) 0 (-1) 0 0 _
    (by positivity) h ?_ ?_
  · intro t
    unfold pk2c3 nrm3
    have hu : (0:ℝ) ≤ t^2+(x^2+y^2) := by positivity
    rw [show x^2+y^2+t^2 = t^2+(x^2+y^2) from by ring]
    rw [Real.sq_sqrt hu]
    exact div_shape2 2 a (2*Real.pi/3) _ _ _ _ hu (by positivity) (by rw [cpi3]; ring)
  · unfold pk3c2 nrm3
    have hu : (0:ℝ) ≤ z^2+(x^2+y^2) := by positivity
    rw [show x^2+y^2+z^2 = z^2+(x^2+y^2) from by ring]
    exact div_shape2 3 a (2*Real.pi/3) _ _ _ _ hu (by positivity)
      (by rw [cpi3]; push_cast; ring)

lemma d_pk3c3 (a x y z : ℝ) (h : x^2 + (y^2+z^2) ≠ 0) :
    HasDerivAt (fun t => pk2c3 a t y z) (pk3c3 a x y z) x := by
  refine kernel_step 2 (y^2+z^2) x (3*a/(2*Real.pi)) _ (-(z^2-4*y^2)*z) 0 (-z) 0 0 0 _
    (by positivity) h ?_ ?_
  · intro t
    unfold pk2c3 nrm3
    have hu : (0:ℝ) ≤ t^2+(y^2+z^2) := by positivity
    rw [show t^2+y^2+z^2 = t^2+(y^2+z^2) from by ring]
    rw [Real.sq_sqrt hu]
    exact div_shape2 2 a (2*Real.pi/3) _ _ _ _ hu (by positivity) (by rw [cpi3]; ring)
  · unfold pk3c3 nrm3
    have hu : (0:ℝ) ≤ x^2+(y^2+z^2) := by positivity
    rw [show x^2+y^2+z^2 = x^2+(y^2+z^2) from by ring]
    rw [Real.sq_sqrt hu]
    exact div_shape2 3 a (2*Real.pi/3) _ _ _ _ hu (by positivity)
      (by rw [cpi3]; push_cast; ring)

lemma d_pk3c4 (a x y z : ℝ) (h : z^2 + (x^2+y^2) ≠ 0) :
    HasDerivAt (fun t => pk2c2 a x y t) (pk3c4 a x y z) z := by
  refine kernel_step 2 (x^2+y^2) z (3*a/(2*Real.pi)) _ (-x*(x^2+y^2)) 0 (4*x) 0 0 0 _
    (by positivity) h ?_ ?_
  · intro t
    unfold pk2c2 nrm3
    have hu : (0:ℝ) ≤ t^2+(x^2+y^2) := by positivity
    rw [show x^2+y^2+t^2 = t^2+(x^2+y^2) from by ring]
    rw [Real.sq_sqrt hu]
    exact div_shape2 2 a (2*Real.pi/3) _ _ _ _ hu (by positivity) (by rw [cpi3]; ring)
  · unfold pk3c4 nrm3
    have hu : (0:ℝ) ≤ z^2+(x^2+y^2) := by positivity
    rw [show x^2+y^2+z^2 = z^2+(x^2+y^2) from by ring]
    exact div_shape2 3 a (2*Real.pi/3) _ _ _ _ hu (by positivity)
      (by rw [cpi3]; push_cast; ring)

lemma d_pk3c5 (a x y z : ℝ) (h : z^2 + (x^2+y^2) ≠ 0) :
    HasDerivAt (fun t => pk2c4 a x y t) (pk3c5 a x y z) z := by
  refine kernel_step 2 (x^2+y^2) z (3*a/(2*Real.pi)) _ (-y*(x^2+y^2)) 0 (4*y) 0 0 0 _
    (by positivity) h ?_ ?_
  · intro t
    unfold pk2c4 nrm3
    have hu : (0:ℝ) ≤ t^2+(x^2+y^2) := by positivity
    rw [show x^2+y^2+t^2 = t^2+(x^2+y^2) from by ring]
    rw [Real.sq_sqrt hu]
    exact div_shape2 2 a (2*Real.pi/3) _ _ _ _ hu (by positivity) (by rw [cpi3]; ring)
  · unfold pk3c5 nrm3
    have hu : (0:ℝ) ≤ z^2+(x^2+y^2) := by positivity
    rw [show x^2+y^2+z^2 = z^2+(x^2+y^2) from by ring]
    exact div_shape2 3 a (2*Real.pi/3) _ _ _ _ hu (by positivity)
      (by rw [cpi3]; push_cast; ring)

lemma d_pk3c6 (a x y z : ℝ) (h : y^2 + (x^2+z^2) ≠ 0) :
    HasDerivAt (fun t => pk2c2 a x t z) (pk3c6 a x y z) y := by
  refine kernel_step 2 (x^2+z^2) y (3*a/(2*Real.pi)) _ (-x*(x^2-4*z^2)) 0 (-x) 0 0 0 _
    (by positivity) h ?_ ?_
  · intro t
    unfold pk2c2 nrm3
    have hu : (0:ℝ) ≤ t^2+(x^2+z^2) := by positivity
    rw [show x^2+t^2+z^2 = t^2+(x^2+z^2) from by ring]
    rw [Real.sq_sqrt hu]
    exact div_shape2 2 a (2*Real.pi/3) _ _ _ _ hu (by positivity) (by rw [cpi3]; ring)
  · unfold pk3c6 nrm3
    have hu : (0:ℝ) ≤ y^2+(x^2+z^2) := by positivity
    rw [show x^2+y^2+z^2 = y^2+(x^2+z^2) from by ring]
    rw [Real.sq_sqrt hu]
    exact div_shape2 3 a (2*Real.pi/3) _ _ _ _ hu (by positivity)
      (by rw [cpi3]; push_cast; ring)

lemma d_pk4c0 (a x y z : ℝ) (h : x^2 + (y^2+z^2) ≠ 0) :
    HasDerivAt (fun t => pk3c0 a t y z) (pk4c0 a x y z) x := by
  refine kernel_step 3 (y^2+z^2) x (3*a/(2*Real.pi)) _ (5*y*z*(y^2+z^2)) 0 (-30*y*z) 0 0 0 _
    (by positivity) h ?_ ?_
  · intro t
    unfold pk3c0 nrm3
    have hu : (0:ℝ) ≤ t^2+(y^2+z^2) := by positivity
    rw [show t^2+y^2+z^2 = t^2+(y^2+z^2) from by ring]
    rw [Real.sq_sqrt hu]
    exact div_shape2 3 a (2*Real.pi/3) _ _ _ _ hu (by positivity) (by rw [cpi3]; ring)
  · unfold pk4c0 nrm3
    have hu : (0:ℝ) ≤ x^2+(y^2+z^2) := by positivity
    rw [show x^2+y^2+z^2 = x^2+(y^2+z^2) from by ring]
    rw [Real.sq_sqrt hu]
    exact div_shape2 4 a (2*Real.pi/15) _ _ _ _ hu (by positivity)
      (by rw [cpi4]; push_cast; ring)

lemma d_pk4c1 (a x y z : ℝ) (h : x^2 + (y^2+z^2) ≠ 0) :
    HasDerivAt (fun t => pk3c1 a t y z) (pk4c1 a x y z) x := by
  refine kernel_step 3 (y^2+z^2) x (3*a/(2*Real.pi)) _ (-y^4+3*y^2*z^2+4*z^4) 0 (3*(y^2-9*z^2)) 0 4 0 _
    (by positivity) h ?_ ?_
  · intro t
    unfold pk3c1 nrm3
    have hu : (0:ℝ) ≤ t^2+(y^2+z^2) := by positivity
    rw [show t^2+y^2+z^2 = t^2+(y^2+z^2) from by ring]
    exact div_shape2 3 a (2*Real.pi/3) _ _ _ _ hu (by positivity) (by rw [cpi3]; ring)
  · unfold pk4c1 nrm3
    have hu : (0:ℝ) ≤ x^2+(y^2+z^2) := by positivity
    rw [show x^2+y^2+z^2 = x^2+(y^2+z^2) from by ring]
    exact div_shape2 4 a (2*Real.pi/15) _ _ _ _ hu (by positivity)
      (by rw [cpi4]; push_cast; ring)

lemma d_pk4c2 (a x y z : ℝ) (h : y^2 + (x^2+z^2) ≠ 0) :
    HasDerivAt (fun t => pk3c0 a x t z) (pk4c2 a x y z) y := by
  refine kernel_step 3 (x^2+z^2) y (3*a/(2*Real.pi)) _ 0 (5*z*(z^2-6*x^2)) 0 (5*z) 0 0 _
    (by positivity) h ?_ ?_
  · intro t
    unfold pk3c0 nrm3
    have hu : (0:ℝ) ≤ t^2+(x^2+z^2) := by positivity
    rw [show x^2+t^2+z^2 = t^2+(x^2+z^2) from by ring]
    rw [Real.sq_sqrt hu]
    exact div_shape2 3 a (2*Real.pi/3) _ _ _ _ hu (by positivity) (by rw [cpi3]; ring)
  · unfold pk4c2 nrm3
    have hu : (0:ℝ) ≤ y^2+(x^2+z^2) := by positivity
    rw [show x^2+y^2+z^2 = y^2+(x^2+z^2) from by ring]
    exact div_shape2 4 a (2*Real.pi/15) _ _ _ _ hu (by positivity)
      (by rw [cpi4]; push_cast; ring)

lemma d_pk4c3 (a x y z : ℝ) (h : z^2 + (x^2+y^2) ≠ 0) :
    HasDerivAt (fun t => pk3c1 a x y t) (pk4c3 a x y z) z := by
  refine kernel_step 3 (x^2+y^2) z (3*a/(2*Real.pi)) _ (4*x^4-y^4+3*x^2*y^2) 0 (3*y^2-27*x^2) 0 4 0 _
    (by positivity) h ?_ ?_
  · intro t
    unfold pk3c1 nrm3
    have hu : (0:ℝ) ≤ t^2+(x^2+y^2) := by positivity
    rw [show x^2+y^2+t^2 = t^2+(x^2+y^2) from by ring]
    exact div_shape2 3 a (2*Real.pi/3) _ _ _ _ hu (by positivity) (by rw [cpi3]; ring)
  · unfold pk4c3 nrm3
    have hu : (0:ℝ) ≤ z^2+(x^2+y^2) := by positivity
    rw [show x^2+y^2+z^2 = z^2+(x^2+y^2) from by ring]
    exact div_shape2 4 a (2*Real.pi/15) _ _ _ _ hu (by positivity)
      (by rw [cpi4]; push_cast; ring)

lemma d_pk4c4 (a x y z : ℝ) (h : y^2 + (x^2+z^2) ≠ 0) :
    HasDerivAt (fun t => pk3c3 a x t z) (pk4c4 a x y z) y := by
  refine kernel_step 3 (x^2+z^2) y (3*a/(2*Real.pi)) _ (5*x*z*(x^2+z^2)) 0 (-30*x*z) 0 0 0 _
    (by positivity) h ?_ ?_
  · intro t
    unfold pk3c3 nrm3
    have hu : (0:ℝ) ≤ t^2+(x^2+z^2) := by positivity
    rw [show x^2+t^2+z^2 = t^2+(x^2+z^2) from by ring]
    rw [Real.sq_sqrt hu]
    exact div_shape2 3 a (2*Real.pi/3) _ _ _ _ hu (by positivity) (by rw [cpi3]; ring)
  · unfold pk4c4 nrm3
    have hu : (0:ℝ) ≤ y^2+(x^2+z^2) := by positivity
    rw [show x^2+y^2+z^2 = y^2+(x^2+z^2) from by ring]
    rw [Real.sq_sqrt hu]
    exact div_shape2 4 a (2*Real.pi/15) _ _ _ _ hu (by positivity)
      (by rw [cpi4]; push_cast; ring)

lemma d_pk4c5 (a x y z : ℝ) (h : z^2 + (x^2+y^2) ≠ 0) :
    HasDerivAt (fun t => pk3c4 a x y t) (pk4c5 a x y z) z := by
  refine kernel_step 3 (x^2+y^2) z (3*a/(2*Real.pi)) _ 0 (15*x*(x^2+y^2)) 0 (-20*x) 0 0 _
    (by positivity) h ?_ ?_
  · intro t
    unfold pk3c4 nrm3
    have hu : (0:ℝ) ≤ t^2+(x^2+y^2) := by positivity
    rw [show x^2+y^2+t^2 = t^2+(x^2+y^2) from by ring]
    exact div_shape2 3 a (2*Real.pi/3) _ _ _ _ hu (by positivity) (by rw [cpi3]; ring)
  · unfold pk4c5 nrm3
    have hu : (0:ℝ) ≤ z^2+(x^2+y^2) := by positivity
    rw [show x^2+y^2+z^2 = z^2+(x^2+y^2) from by ring]
    exact div_shape2 4 a (2*Real.pi/15) _ _ _ _ hu (by positivity)
      (by rw [cpi4]; push_cast; ring)

lemma d_pk4c6 (a x y z : ℝ) (h : y^2 + (x^2+z^2) ≠ 0) :
    HasDerivAt (fun t => pk3c2 a x t z) (pk4c6 a x y z) y := by
  refine kernel_step 3 (x^2+z^2) y (3*a/(2*Real.pi)) _ (-x^4+4*z^4+3*x^2*z^2) 0 (3*x^2-27*z^2) 0 4 0 _
    (by positivity) h ?_ ?_
  · intro t
    unfold pk3c2 nrm3
    have hu : (0:ℝ) ≤ t^2+(x^2+z^2) := by positivity
    rw [show x^2+t^2+z^2 = t^2+(x^2+z^2) from by ring]
    exact div_shape2 3 a (2*Real.pi/3) _ _ _ _ hu (by positivity) (by rw [cpi3]; ring)
  · unfold pk4c6 nrm3
    have hu : (0:ℝ) ≤ y^2+(x^2+z^2) := by positivity
    rw [show x^2+y^2+z^2 = y^2+(x^2+z^2) from by ring]
    exact div_shape2 4 a (2*Real.pi/15) _ _ _ _ hu (by positivity)
      (by rw [cpi4]; push_cast; ring)

lemma d_pk4c7 (a x y z : ℝ) (h : z^2 + (x^2+y^2) ≠ 0) :
    HasDerivAt (fun t => pk3c2 a x y t) (pk4c7 a x y z) z := by
  refine kernel_step 3 (x^2+y^2) z (3*a/(2*Real.pi)) _ (-x^4+4*y^4+3*x^2*y^2) 0 (3*x^2-27*y^2) 0 4 0 _
    (by positivity) h ?_ ?_
  · intro t
    unfold pk3c2 nrm3
    have hu : (0:ℝ) ≤ t^2+(x^2+y^2) := by positivity
    rw [show x^2+y^2+t^2 = t^2+(x^2+y^2) from by ring]
    exact div_shape2 3 a (2*Real.pi/3) _ _ _ _ hu (by positivity) (by rw [cpi3]; ring)
  · unfold pk4c7 nrm3
    have hu : (0:ℝ) ≤ z^2+(x^2+y^2) := by positivity
    rw [show x^2+y^2+z^2 = z^2+(x^2+y^2) from by ring]
    exact div_shape2 4 a (2*Real.pi/15) _ _ _ _ hu (by positivity)
      (by rw [cpi4]; push_cast; ring)

lemma d_pk4c8 (a x y z : ℝ) (h : z^2 + (x^2+y^2) ≠ 0) :
    HasDerivAt (fun t => pk3c5 a x y t) (pk4c8 a x y z) z := by
  refine kernel_step 3 (x^2+y^2) z (3*a/(2*Real.pi)) _ 0 (15*y*(x^2+y^2)) 0 (-20*y) 0 0 _
    (by positivity) h ?_ ?_
  · intro t
    unfold pk3c5 nrm3
    have hu : (0:ℝ) ≤ t^2+(x^2+y^2) := by positivity
    rw [show x^2+y^2+t^2 = t^2+(x^2+y^2) from by ring]
    exact div_shape2 3 a (2*Real.pi/3) _ _ _ _ hu (by positivity) (by rw [cpi3]; ring)
  · unfold pk4c8 nrm3
    have hu : (0:ℝ) ≤ z^2+(x^2+y^2) := by positivity
    rw [show x^2+y^2+z^2 = z^2+(x^2+y^2) from by ring]
    exact div_shape2 4 a (2*Real.pi/15) _ _ _ _ hu (by positivity)
      (by rw [cpi4]; push_cast; ring)

lemma d_pk5c0 (a x y z : ℝ) (h : y^2 + (x^2+z^2) ≠ 0) :
    HasDerivAt (fun t => pk4c0 a x t z) (pk5c0 a x y z) y := by
  refine kernel_step 4 (x^2+z^2) y (15*a/(2*Real.pi)) _ 0 (-21*x*z*(z^2-2*x^2)) 0 (-21*x*z) 0 0 _
    (by positivity) h ?_ ?_
  · intro t
    unfold pk4c0 nrm3
    have hu : (0:ℝ) ≤ t^2+(x^2+z^2) := by positivity
    rw [show x^2+t^2+z^2 = t^2+(x^2+z^2) from by ring]
    rw [Real.sq_sqrt hu]
    exact div_shape2 4 a (2*Real.pi/15) _ _ _ _ hu (by positivity) (by rw [cpi5]; ring)
  · unfold pk5c0 nrm3
    have hu : (0:ℝ) ≤ y^2+(x^2+z^2) := by positivity
    rw [show x^2+y^2+z^2 = y^2+(x^2+z^2) from by ring]
    exact div_shape2 5 a (2*Real.pi/45) _ _ _ _ hu (by positivity)
      (by rw [cpi6]; push_cast; ring)

lemma d_pk5c1 (a x y z : ℝ) (h : z^2 + (x^2+y^2) ≠ 0) :
    HasDerivAt (fun t => pk4c0 a x y t) (pk5c1 a x y z) z := by
  refine kernel_step 4 (x^2+y^2) z (15*a/(2*Real.pi)) _ 0 (-21*x*y*(y^2-2*x^2)) 0 (-21*x*y) 0 0 _
    (by positivity) h ?_ ?_
  · intro t
    unfold pk4c0 nrm3
    have hu : (0:ℝ) ≤ t^2+(x^2+y^2) := by positivity
    rw [show x^2+y^2+t^2 = t^2+(x^2+y^2) from by ring]
    rw [Real.sq_sqrt hu]
    exact div_shape2 4 a (2*Real.pi/15) _ _ _ _ hu (by positivity) (by rw [cpi5]; ring)
  · unfold pk5c1 nrm3
    have hu : (0:ℝ) ≤ z^2+(x^2+y^2) := by positivity
    rw [show x^2+y^2+z^2 = z^2+(x^2+y^2) from by ring]
    exact div_shape2 5 a (2*Real.pi/45) _ _ _ _ hu (by positivity)
      (by rw [cpi6]; push_cast; ring)

lemma d_pk5c2 (a x y z : ℝ) (h : z^2 + (x^2+y^2) ≠ 0) :
    HasDerivAt (fun t => pk4c1 a x y t) (pk5c2 a x y z) z := by
  refine kernel_step 4 (x^2+y^2) z (15*a/(2*Real.pi)) _ (-4*x^5-x^3*y^2+3*x*y^4) 0 (41*x^3-15*x*y^2) 0 (-18*x) 0 _
    (by positivity) h ?_ ?_
  · intro t
    unfold pk4c1 nrm3
    have hu : (0:ℝ) ≤ t^2+(x^2+y^2) := by positivity
    rw [show x^2+y^2+t^2 = t^2+(x^2+y^2) from by ring]
    exact div_shape2 4 a (2*Real.pi/15) _ _ _ _ hu (by positivity) (by rw [cpi5]; ring)
  · unfold pk5c2 nrm3
    have hu : (0:ℝ) ≤ z^2+(x^2+y^2) := by positivity
    rw [show x^2+y^2+z^2 = z^2+(x^2+y^2) from by ring]
    exact div_shape2 5 a (2*Real.pi/45) _ _ _ _ hu (by positivity)
      (by rw [cpi6]; push_cast; ring)

lemma d_pk5c3 (a x y z : ℝ) (h : y^2 + (x^2+z^2) ≠ 0) :
    HasDerivAt (fun t => pk4c2 a x t z) (pk5c3 a x y z) y := by
  refine kernel_step 4 (x^2+z^2) y (15*a/(2*Real.pi)) _ (-6*x^4*z-5*x^2*z^3+z^5) 0 (51*x^2*z-5*z^3) 0 (-6*z) 0 _
    (by positivity) h ?_ ?_
  · intro t
    unfold pk4c2 nrm3
    have hu : (0:ℝ) ≤ t^2+(x^2+z^2) := by positivity
    rw [show x^2+t^2+z^2 = t^2+(x^2+z^2) from by ring]
    exact div_shape2 4 a (2*Real.pi/15) _ _ _ _ hu (by positivity) (by rw [cpi5]; ring)
  · unfold pk5c3 nrm3
    have hu : (0:ℝ) ≤ y^2+(x^2+z^2) := by positivity
    rw [show x^2+y^2+z^2 = y^2+(x^2+z^2) from by ring]
    exact div_shape2 5 a (2*Real.pi/45) _ _ _ _ hu (by positivity)
      (by rw [cpi6]; push_cast; ring)

lemma d_pk5c4 (a x y z : ℝ) (h : z^2 + (x^2+y^2) ≠ 0) :
    HasDerivAt (fun t => pk4c2 a x y t) (pk5c4 a x y z) z := by
  refine kernel_step 4 (x^2+y^2) z (15*a/(2*Real.pi)) _ 0 (-6*x^4+51*x^2*y^2-6*y^4) 0 (-5*(x^2+y^2)) 0 1 _
    (by positivity) h ?_ ?_
  · intro t
    unfold pk4c2 nrm3
    have hu : (0:ℝ) ≤ t^2+(x^2+y^2) := by positivity
    rw [show x^2+y^2+t^2 = t^2+(x^2+y^2) from by ring]
    exact div_shape2 4 a (2*Real.pi/15) _ _ _ _ hu (by positivity) (by rw [cpi5]; ring)
  · unfold pk5c4 nrm3
    have hu : (0:ℝ) ≤ z^2+(x^2+y^2) := by positivity
    rw [show x^2+y^2+z^2 = z^2+(x^2+y^2) from by ring]
    exact div_shape2 5 a (2*Real.pi/45) _ _ _ _ hu (by positivity)
      (by rw [cpi6]; push_cast; ring)

lemma d_pk5c5 (a x y z : ℝ) (h : y^2 + (x^2+z^2) ≠ 0) :
    HasDerivAt (fun t => pk4c3 a x t z) (pk5c5 a x y z) y := by
  refine kernel_step 4 (x^2+z^2) y (15*a/(2*Real.pi)) _ (-z*(18*x^4+4*z^4-41*x^2*z^2)) 0 (-z*(z^2+15*x^2)) 0 (3*z) 0 _
    (by positivity) h ?_ ?_
  · intro t
    unfold pk4c3 nrm3
    have hu : (0:ℝ) ≤ t^2+(x^2+z^2) := by positivity
    rw [show x^2+t^2+z^2 = t^2+(x^2+z^2) from by ring]
    exact div_shape2 4 a (2*Real.pi/15) _ _ _ _ hu (by positivity) (by rw [cpi5]; ring)
  · unfold pk5c5 nrm3
    have hu : (0:ℝ) ≤ y^2+(x^2+z^2) := by positivity
    rw [show x^2+y^2+z^2 = y^2+(x^2+z^2) from by ring]
    exact div_shape2 5 a (2*Real.pi/45) _ _ _ _ hu (by positivity)
      (by rw [cpi6]; push_cast; ring)

lemma d_pk5c6 (a x y z : ℝ) (h : z^2 + (x^2+y^2) ≠ 0) :
    HasDerivAt (fun t => pk4c3 a x y t) (pk5c6 a x y z) z := by
  refine kernel_step 4 (x^2+y^2) z (15*a/(2*Real.pi)) _ 0 (-(18*x^4-3*y^4+15*x^2*y^2)) 0 (-(y^2-41*x^2)) 0 (-4) _
    (by positivity) h ?_ ?_
  · intro t
    unfold pk4c3 nrm3
    have hu : (0:ℝ) ≤ t^2+(x^2+y^2) := by positivity
    rw [show x^2+y^2+t^2 = t^2+(x^2+y^2) from by ring]
    exact div_shape2 4 a (2*Real.pi/15) _ _ _ _ hu (by positivity) (by rw [cpi5]; ring)
  · unfold pk5c6 nrm3
    have hu : (0:ℝ) ≤ z^2+(x^2+y^2) := by positivity
    rw [show x^2+y^2+z^2 = z^2+(x^2+y^2) from by ring]
    exact div_shape2 5 a (2*Real.pi/45) _ _ _ _ hu (by positivity)
      (by rw [cpi6]; push_cast; ring)

lemma d_pk5c7 (a x y z : ℝ) (h : z^2 + (x^2+y^2) ≠ 0) :
    HasDerivAt (fun t => pk4c4 a x y t) (pk5c7 a x y z) z := by
  refine kernel_step 4 (x^2+y^2) z (15*a/(2*Real.pi)) _ 0 (-21*x*y*(x^2-2*y^2)) 0 (-21*x*y) 0 0 _
    (by positivity) h ?_ ?_
  · intro t
    unfold pk4c4 nrm3
    have hu : (0:ℝ) ≤ t^2+(x^2+y^2) := by positivity
    rw [show x^2+y^2+t^2 = t^2+(x^2+y^2) from by ring]
    rw [Real.sq_sqrt hu]
    exact div_shape2 4 a (2*Real.pi/15) _ _ _ _ hu (by positivity) (by rw [cpi5]; ring)
  · unfold pk5c7 nrm3
    have hu : (0:ℝ) ≤ z^2+(x^2+y^2) := by positivity
    rw [show x^2+y^2+z^2 = z^2+(x^2+y^2) from by ring]
    exact div_shape2 5 a (2*Real.pi/45) _ _ _ _ hu (by positivity)
      (by rw [cpi6]; push_cast; ring)

lemma d_pk5c8 (a x y z : ℝ) (h : x^2 + (y^2+z^2) ≠ 0) :
    HasDerivAt (fun t => pk4c7 a t y z) (pk5c8 a x y z) x := by
  refine kernel_step 4 (y^2+z^2) x (15*a/(2*Real.pi)) _ (-18*y^4*z+41*y^2*z^3-4*z^5) 0 (-15*y^2*z-z^3) 0 (3*z) 0 _
    (by positivity) h ?_ ?_
  · intro t
    unfold pk4c7 nrm3
    have hu : (0:ℝ) ≤ t^2+(y^2+z^2) := by positivity
    rw [show t^2+y^2+z^2 = t^2+(y^2+z^2) from by ring]
    exact div_shape2 4 a (2*Real.pi/15) _ _ _ _ hu (by positivity) (by rw [cpi5]; ring)
  · unfold pk5c8 nrm3
    have hu : (0:ℝ) ≤ x^2+(y^2+z^2) := by positivity
    rw [show x^2+y^2+z^2 = x^2+(y^2+z^2) from by ring]
    exact div_shape2 5 a (2*Real.pi/45) _ _ _ _ hu (by positivity)
      (by rw [cpi6]; push_cast; ring)

lemma d_pk5c9 (a x y z : ℝ) (h : z^2 + (x^2+y^2) ≠ 0) :
    HasDerivAt (fun t => pk4c6 a x y t) (pk5c9 a x y z) z := by
  refine kernel_step 4 (x^2+y^2) z (15*a/(2*Real.pi)) _ (-y*(-3*x^4+4*y^4+x^2*y^2)) 0 (-y*(15*x^2-41*y^2)) 0 (-18*y) 0 _
    (by positivity) h ?_ ?_
  · intro t
    unfold pk4c6 nrm3
    have hu : (0:ℝ) ≤ t^2+(x^2+y^2) := by positivity
    rw [show x^2+y^2+t^2 = t^2+(x^2+y^2) from by ring]
    exact div_shape2 4 a (2*Real.pi/15) _ _ _ _ hu (by positivity) (by rw [cpi5]; ring)
  · unfold pk5c9 nrm3
    have hu : (0:ℝ) ≤ z^2+(x^2+y^2) := by positivity
    rw [show x^2+y^2+z^2 = z^2+(x^2+y^2) from by ring]
    exact div_shape2 5 a (2*Real.pi/45) _ _ _ _ hu (by positivity)
      (by rw [cpi6]; push_cast; ring)

lemma d_pk5c10 (a x y z : ℝ) (h : z^2 + (x^2+y^2) ≠ 0) :
    HasDerivAt (fun t => pk4c7 a x y t) (pk5c10 a x y z) z := by
  refine kernel_step 4 (x^2+y^2) z (15*a/(2*Real.pi)) _ 0 (3*(x^2-6*y^2)*(x^2+y^2)) 0 (-(x^2-41*y^2)) 0 (-4) _
    (by positivity) h ?_ ?_
  · intro t
    unfold pk4c7 nrm3
    have hu : (0:ℝ) ≤ t^2+(x^2+y^2) := by positivity
    rw [show x^2+y^2+t^2 = t^2+(x^2+y^2) from by ring]
    exact div_shape2 4 a (2*Real.pi/15) _ _ _ _ hu (by positivity) (by rw [cpi5]; ring)
  · unfold pk5c10 nrm3
    have hu : (0:ℝ) ≤ z^2+(x^2+y^2) := by positivity
    rw [show x^2+y^2+z^2 = z^2+(x^2+y^2) from by ring]
    exact div_shape2 5 a (2*Real.pi/45) _ _ _ _ hu (by positivity)
      (by rw [cpi6]; push_cast; ring)

lemma pk0_eval_unit : pk0 1 0 0 1 = 1/(2*Real.pi) := by
  unfold pk0 nrm3
  norm_num

lemma pk1c2_eval_unit : pk1c2 1 0 0 1 = -2/(2*Real.pi) := by
  unfold pk1c2 nrm3
  norm_num

lemma point_value_unit_scenario :
    pixel_value (fun fp => point_value 1 ⟨0, 0, 0⟩ fp [0, 1]) 50 0 ⟨0, 0, 1⟩
      = [KTensor.t0 (1/(2*Real.pi)), KTensor.t1 (pk1 1 0 0 1)] := by
  show point_value 1 ⟨0, 0, 0⟩ ⟨0, 0, 1⟩ [0, 1] = _
  unfold point_value
  norm_num [pk0_eval_unit]


/-- C1: the order-0 value of the point kernel is the closed form
`a*z/(2*pi*r**3)` in the relative vector `(x, y, z)`; away from the
source (`(x,y,z) ≠ 0`) every stored component of orders 1..5 is an exact
spatial partial derivative of a stored component one order lower, so the
orders 1..5 are the successive exact spatial derivatives of the order-0
kernel; and for a unit-weight point primitive at the origin, field point
`(0, 0, 1)`, `nmax = 0`, the order-0 potential equals `1/(2*pi)` and the
z-component of the order-1 result equals `-2/(2*pi)`. -/
theorem C1_point_kernel_derivative_family (a x y z : ℝ) (h : x^2 + y^2 + z^2 ≠ 0) :
    (pk0 a x y z = a * z/(2*Real.pi*(Real.sqrt (x^2 + y^2 + z^2))^3))
    ∧ (HasDerivAt (fun t => pk0 a t y z) (pk1c0 a x y z) x
    ∧ HasDerivAt (fun t => pk0 a x t z) (pk1c1 a x y z) y
    ∧ HasDerivAt (fun t => pk0 a x y t) (pk1c2 a x y z) z
    ∧ HasDerivAt (fun t => pk1c0 a t y z) (pk2c0 a x y z) x
    ∧ HasDerivAt (fun t => pk1c0 a x t z) (pk2c1 a x y z) y
    ∧ HasDerivAt (fun t => pk1c0 a x y t) (pk2c2 a x y z) z
    ∧ HasDerivAt (fun t => pk1c1 a x t z) (pk2c3 a x y z) y
    ∧ HasDerivAt (fun t => pk1c1 a x y t) (pk2c4 a x y z) z
    ∧ HasDerivAt (fun t => pk2c0 a x t z) (pk3c0 a x y z) y
    ∧ HasDerivAt (fun t => pk2c0 a x y t) (pk3c1 a x y z) z
    ∧ HasDerivAt (fun t => pk2c3 a x y t) (pk3c2 a x y z) z
    ∧ HasDerivAt (fun t => pk2c3 a t y z) (pk3c3 a x y z) x
    ∧ HasDerivAt (fun t => pk2c2 a x y t) (pk3c4 a x y z) z
    ∧ HasDerivAt (fun t => pk2c4 a x y t) (pk3c5 a x y z) z
    ∧ HasDerivAt (fun t => pk2c2 a x t z) (pk3c6 a x y z) y
    ∧ HasDerivAt (fun t => pk3c0 a t y z) (pk4c0 a x y z) x
    ∧ HasDerivAt (fun t => pk3c1 a t y z) (pk4c1 a x y z) x
    ∧ HasDerivAt (fun t => pk3c0 a x t z) (pk4c2 a x y z) y
    ∧ HasDerivAt (fun t => pk3c1 a x y t) (pk4c3 a x y z) z
    ∧ HasDerivAt (fun t => pk3c3 a x t z) (pk4c4 a x y z) y
    ∧ HasDerivAt (fun t => pk3c4 a x y t) (pk4c5 a x y z) z
    ∧ HasDerivAt (fun t => pk3c2 a x t z) (pk4c6 a x y z) y
    ∧ HasDerivAt (fun t => pk3c2 a x y t) (pk4c7 a x y z) z
    ∧ HasDerivAt (fun t => pk3c5 a x y t) (pk4c8 a x y z) z
    ∧ HasDerivAt (fun t => pk4c0 a x t z) (pk5c0 a x y z) y
    ∧ HasDerivAt (fun t => pk4c0 a x y t) (pk5c1 a x y z) z
    ∧ HasDerivAt (fun t => pk4c1 a x y t) (pk5c2 a x y z) z
    ∧ HasDerivAt (fun t => pk4c2 a x t z) (pk5c3 a x y z) y
    ∧ HasDerivAt (fun t => pk4c2 a x y t) (pk5c4 a x y z) z
    ∧ HasDerivAt (fun t => pk4c3 a x t z) (pk5c5 a x y z) y
    ∧ HasDerivAt (fun t => pk4c3 a x y t) (pk5c6 a x y z) z
    ∧ HasDerivAt (fun t => pk4c4 a x y t) (pk5c7 a x y z) z
    ∧ HasDerivAt (fun t => pk4c7 a t y z) (pk5c8 a x y z) x
    ∧ HasDerivAt (fun t => pk4c6 a x y t) (pk5c9 a x y z) z
    ∧ HasDerivAt (fun t => pk4c7 a x y t) (pk5c10 a x y z) z)
    ∧ (pixel_value (fun fp => point_value 1 ⟨0, 0, 0⟩ fp [0, 1]) 50 0 ⟨0, 0, 1⟩
        = [KTensor.t0 (1/(2*Real.pi)), KTensor.t1 (pk1 1 0 0 1)]
      ∧ pk1 1 0 0 1 2 = -2/(2*Real.pi)) := by
  exact ⟨rfl,
    ⟨d_pk1c0 a x y z (fun h0 => h (by linarith)),
    d_pk1c1 a x y z (fun h0 => h (by linarith)),
    d_pk1c2 a x y z (fun h0 => h (by linarith)),
    d_pk2c0 a x y z (fun h0 => h (by linarith)),
    d_pk2c1 a x y z (fun h0 => h (by linarith)),
    d_pk2c2 a x y z (fun h0 => h (by linarith)),
    d_pk2c3 a x y z (fun h0 => h (by linarith)),
    d_pk2c4 a x y z (fun h0 => h (by linarith)),
    d_pk3c0 a x y z (fun h0 => h (by linarith)),
    d_pk3c1 a x y z (fun h0 => h (by linarith)),
    d_pk3c2 a x y z (fun h0 => h (by linarith)),
    d_pk3c3 a x y z (fun h0 => h (by linarith)),
    d_pk3c4 a x y z (fun h0 => h (by linarith)),
    d_pk3c5 a x y z (fun h0 => h (by linarith)),
    d_pk3c6 a x y z (fun h0 => h (by linarith)),
    d_pk4c0 a x y z (fun h0 => h (by linarith)),
    d_pk4c1 a x y z (fun h0 => h (by linarith)),
    d_pk4c2 a x y z (fun h0 => h (by linarith)),
    d_pk4c3 a x y z (fun h0 => h (by linarith)),
    d_pk4c4 a x y z (fun h0 => h (by linarith)),
    d_pk4c5 a x y z (fun h0 => h (by linarith)),
    d_pk4c6 a x y z (fun h0 => h (by linarith)),
    d_pk4c7 a x y z (fun h0 => h (by linarith)),
    d_pk4c8 a x y z (fun h0 => h (by linarith)),
    d_pk5c0 a x y z (fun h0 => h (by linarith)),
    d_pk5c1 a x y z (fun h0 => h (by linarith)),
    d_pk5c2 a x y z (fun h0 => h (by linarith)),
    d_pk5c3 a x y z (fun h0 => h (by linarith)),
    d_pk5c4 a x y z (fun h0 => h (by linarith)),
    d_pk5c5 a x y z (fun h0 => h (by linarith)),
    d_pk5c6 a x y z (fun h0 => h (by linarith)),
    d_pk5c7 a x y z (fun h0 => h (by linarith)),
    d_pk5c8 a x y z (fun h0 => h (by linarith)),
    d_pk5c9 a x y z (fun h0 => h (by linarith)),
    d_pk5c10 a x y z (fun h0 => h (by linarith))⟩,
    point_value_unit_scenario, pk1c2_eval_unit⟩

theorem C1_point_kernel_derivative_family_witness :
    (pk0 1 0 0 1 = 1 * 1/(2*Real.pi*(Real.sqrt ((0:ℝ)^2 + 0^2 + 1^2))^3))
    ∧ HasDerivAt (fun t => pk0 1 t 0 1) (pk1c0 1 0 0 1) 0 := by
  have H := C1_point_kernel_derivative_family 1 0 0 1 (by norm_num)
  exact ⟨H.1, H.2.1.1⟩


lemma addInto_length (r s : List KTensor) : (addInto r s).length = r.length := by
  simp [addInto]
  omega

lemma addInto_getD (r s : List KTensor) (i : ℕ) (hi : i < r.length) (hs : i < s.length) :
    (addInto r s).getD i (KTensor.t0 0)
      = KTensor.add (r.getD i (KTensor.t0 0)) (s.getD i (KTensor.t0 0)) := by
  unfold addInto
  have hz : i < (List.zipWith KTensor.add r s).length := by
    rw [List.length_zipWith]; omega
  rw [List.getD_eq_getElem _ _ (by rw [List.length_append]; omega),
    List.getElem_append_left hz, List.getElem_zipWith,
    List.getD_eq_getElem _ _ hi, List.getD_eq_getElem _ _ hs]

lemma pixel_fold_getD (vnc : V3 → List KTensor) (L : ℕ) (hlen : ∀ y, (vnc y).length = L)
    (F : ℤ → V3) (ns : List ℤ) (r0 : List KTensor) (h0 : r0.length = L) (i : ℕ)
    (hi : i < L) :
    (ns.foldl (fun r n => addInto r (vnc (F n))) r0).getD i (KTensor.t0 0)
      = (ns.map (fun n => (vnc (F n)).getD i (KTensor.t0 0))).foldl KTensor.add
          (r0.getD i (KTensor.t0 0)) := by
  induction ns generalizing r0 with
  | nil => rfl
  | cons q qs ih =>
    simp only [List.foldl_cons, List.map_cons]
    rw [ih (addInto r0 (vnc (F q))) (by rw [addInto_length, h0]),
      addInto_getD r0 (vnc (F q)) i (by omega) (by rw [hlen (F q)]; omega)]

lemma imageNs_mem (nmax : ℕ) (n : ℤ) :
    n ∈ imageNs nmax ↔ n ≠ 0 ∧ -(nmax:ℤ) ≤ n ∧ n ≤ (nmax:ℤ) := by
  simp only [imageNs, List.mem_append, List.mem_map, List.mem_range]
  constructor
  · rintro (⟨i, hi, rfl⟩ | ⟨i, hi, rfl⟩)
    · exact ⟨by omega, by omega, by omega⟩
    · exact ⟨by omega, by omega, by omega⟩
  · rintro ⟨hn0, hlo, hhi⟩
    rcases lt_or_gt_of_ne hn0 with hneg | hpos
    · exact Or.inl ⟨(n + nmax).toNat, by omega, by omega⟩
    · exact Or.inr ⟨(n - 1).toNat, by omega, by omega⟩

/-- C3: the cover-plane-corrected value is the bare kernel at `x` plus the
bare kernel at `x` displaced by `(0, 0, 2*n*cover_height)` for every image
index `n` in `{-nmax..-1, 1..nmax}`, accumulated identically on every
entry of the requested-order list; with `nmax = 0` it equals the bare
kernel exactly. -/
theorem C3_cover_plane_images (vnc : V3 → List KTensor) (ch : ℝ) (nmax : ℕ) (fp : V3)
    (L : ℕ) (hlen : ∀ y, (vnc y).length = L) :
    (∀ i, i < L → (pixel_value vnc ch nmax fp).getD i (KTensor.t0 0)
        = ((imageNs nmax).map
            (fun n : ℤ => (vnc (zshift fp (2*(n:ℝ)*ch))).getD i (KTensor.t0 0))).foldl
            KTensor.add ((vnc fp).getD i (KTensor.t0 0)))
    ∧ (∀ n : ℤ, n ∈ imageNs nmax ↔ n ≠ 0 ∧ -(nmax:ℤ) ≤ n ∧ n ≤ (nmax:ℤ))
    ∧ pixel_value vnc ch 0 fp = vnc fp := by
  refine ⟨fun i hi => ?_, imageNs_mem nmax, rfl⟩
  unfold pixel_value
  exact pixel_fold_getD vnc L hlen (fun n => zshift fp (2*(n:ℝ)*ch)) (imageNs nmax)
    (vnc fp) (hlen fp) i hi

theorem C3_cover_plane_images_witness :
    (pixel_value (fun fp => point_value 1 ⟨0, 0, 0⟩ fp [0]) 50 1 ⟨0, 0, 1⟩).getD 0
        (KTensor.t0 0)
      = ((imageNs 1).map
          (fun n : ℤ => ((fun fp => point_value 1 ⟨0, 0, 0⟩ fp [0])
            (zshift ⟨0, 0, 1⟩ (2*(n:ℝ)*50))).getD 0 (KTensor.t0 0))).foldl
          KTensor.add (((fun fp => point_value 1 ⟨0, 0, 0⟩ fp [0]) ⟨0, 0, 1⟩).getD 0
            (KTensor.t0 0)) := by
  exact (C3_cover_plane_images (fun fp => point_value 1 ⟨0, 0, 0⟩ fp [0]) 50 1 ⟨0, 0, 1⟩
    1 (fun _ => rfl)).1 0 (by norm_num)

lemma point_value_orders (a : ℝ) (p fp : V3) (d : List ℕ) :
    (point_value a p fp d).map KTensor.ord = (List.range 6).filter (· ∈ d) := by
  by_cases h0 : 0 ∈ d <;> by_cases h1 : 1 ∈ d <;> by_cases h2 : 2 ∈ d <;>
    by_cases h3 : 3 ∈ d <;> by_cases h4 : 4 ∈ d <;> by_cases h5 : 5 ∈ d <;>
    simp [point_value, KTensor.ord, List.range_succ, h0, h1, h2, h3, h4, h5]

lemma polygon_value_orders (g2 : List V3 → V3 → Fin 5 → ℝ) (g3 : List V3 → V3 → Fin 7 → ℝ)
    (g4 : List V3 → V3 → Fin 9 → ℝ) (g5 : List V3 → V3 → Fin 11 → ℝ)
    (path : List V3) (fp : V3) (d : List ℕ) :
    (polygon_value g2 g3 g4 g5 path fp d).map KTensor.ord = (List.range 6).filter (· ∈ d) := by
  by_cases h0 : 0 ∈ d <;> by_cases h1 : 1 ∈ d <;> by_cases h2 : 2 ∈ d <;>
    by_cases h3 : 3 ∈ d <;> by_cases h4 : 4 ∈ d <;> by_cases h5 : 5 ∈ d <;>
    simp [polygon_value, KTensor.ord, List.range_succ, h0, h1, h2, h3, h4, h5]

lemma cover_potential_orders (ch : ℝ) (fp : V3) (d : List ℕ) :
    (cover_potential ch fp d).map CTensor.ord = (List.range 6).filter (· ∈ d) := by
  by_cases h0 : 0 ∈ d <;> by_cases h1 : 1 ∈ d <;> by_cases h2 : 2 ∈ d <;>
    by_cases h3 : 3 ∈ d <;> by_cases h4 : 4 ∈ d <;> by_cases h5 : 5 ∈ d <;>
    simp [cover_potential, CTensor.ord, List.range_succ, h0, h1, h2, h3, h4, h5]

/-- C10: every value list carries exactly one entry per distinct requested
order lying in 0..5, in ascending order, independent of the order and
multiplicity of the request; in particular requesting `(2, 1)` yields the
order-1 entry first and the order-2 entry second. -/
theorem C10_order_dispatch :
    (∀ (a : ℝ) (p fp : V3) (d : List ℕ),
      (point_value a p fp d).map KTensor.ord = (List.range 6).filter (· ∈ d))
    ∧ (∀ (g2 : List V3 → V3 → Fin 5 → ℝ) (g3 : List V3 → V3 → Fin 7 → ℝ)
        (g4 : List V3 → V3 → Fin 9 → ℝ) (g5 : List V3 → V3 → Fin 11 → ℝ)
        (path : List V3) (fp : V3) (d : List ℕ),
      (polygon_value g2 g3 g4 g5 path fp d).map KTensor.ord
        = (List.range 6).filter (· ∈ d))
    ∧ (∀ (ch : ℝ) (fp : V3) (d : List ℕ),
      (cover_potential ch fp d).map CTensor.ord = (List.range 6).filter (· ∈ d))
    ∧ (∀ (a : ℝ) (p fp : V3), (point_value a p fp [2, 1]).map KTensor.ord = [1, 2])
    ∧ (∀ (ch : ℝ) (fp : V3), (cover_potential ch fp [2, 1]).map CTensor.ord = [1, 2]) := by
  refine ⟨point_value_orders, polygon_value_orders, cover_potential_orders,
    fun a p fp => ?_, fun ch fp => ?_⟩
  · rw [point_value_orders]
    rfl
  · rw [cover_potential_orders]
    rfl

/-- C4 counterexample: requesting only the out-of-range order 6 does not
fail; each kernel value function returns normally with the empty list. -/
theorem C4_counterexample :
    point_value 1 ⟨0, 0, 0⟩ ⟨0, 0, 1⟩ [6] = []
    ∧ polygon_value (fun _ _ _ => 0) (fun _ _ _ => 0) (fun _ _ _ => 0) (fun _ _ _ => 0)
        [] ⟨0, 0, 1⟩ [6] = []
    ∧ cover_potential 100 ⟨0, 0, 1⟩ [6] = [] := by
  refine ⟨?_, ?_, ?_⟩ <;> rfl

/-- C4 amended: a requested derivative order outside 0..5 is silently
skipped; with only out-of-range orders requested each kernel value
function returns the empty list, and no error condition is raised. -/
theorem C4_out_of_range_silent (k : ℕ) (hk : 5 < k) :
    (∀ (a : ℝ) (p fp : V3), point_value a p fp [k] = [])
    ∧ (∀ (g2 : List V3 → V3 → Fin 5 → ℝ) (g3 : List V3 → V3 → Fin 7 → ℝ)
        (g4 : List V3 → V3 → Fin 9 → ℝ) (g5 : List V3 → V3 → Fin 11 → ℝ)
        (path : List V3) (fp : V3), polygon_value g2 g3 g4 g5 path fp [k] = [])
    ∧ (∀ (ch : ℝ) (fp : V3), cover_potential ch fp [k] = []) := by
  have h0 : (0:ℕ) ∉ [k] := by simp; omega
  have h1 : (1:ℕ) ∉ [k] := by simp; omega
  have h2 : (2:ℕ) ∉ [k] := by simp; omega
  have h3 : (3:ℕ) ∉ [k] := by simp; omega
  have h4 : (4:ℕ) ∉ [k] := by simp; omega
  have h5 : (5:ℕ) ∉ [k] := by simp; omega
  refine ⟨fun a p fp => ?_, fun g2 g3 g4 g5 path fp => ?_, fun ch fp => ?_⟩ <;>
    simp [point_value, polygon_value, cover_potential, h0, h1, h2, h3, h4, h5] <;>
    omega

theorem C4_out_of_range_silent_witness :
    point_value 1 ⟨0, 0, 0⟩ ⟨1, 1, 1⟩ [6] = [] :=
  (C4_out_of_range_silent 6 (by norm_num)).1 1 ⟨0, 0, 0⟩ ⟨1, 1, 1⟩

lemma atan2_zero_zero : atan2 0 0 = 0 := by
  simp [atan2]

lemma atan2_zero_of_pos (x : ℝ) (hx : 0 < x) : atan2 0 x = 0 := by
  simp [atan2, hx]

lemma arctan_pos_aux (t : ℝ) (h : 0 < t) : 0 < Real.arctan t := by
  have h2 := Real.arctan_strictMono h
  rwa [Real.arctan_zero] at h2

lemma atan2_pos_of_pos (y x : ℝ) (hy : 0 < y) (hx : 0 < x) : 0 < atan2 y x := by
  unfold atan2
  rw [if_pos hx]
  exact arctan_pos_aux _ (div_pos hy hx)

lemma atan2_neg_of_pos (y x : ℝ) (hy : y < 0) (hx : 0 < x) : atan2 y x < 0 := by
  unfold atan2
  rw [if_pos hx]
  have h2 : 0 < Real.arctan (-(y/x)) := arctan_pos_aux _
    (by rw [show -(y/x) = (-y)/x from by ring]; exact div_pos (by linarith) hx)
  rw [Real.arctan_neg] at h2
  linarith

lemma sgn_of_pos (t : ℝ) (h : 0 < t) : sgn t = 1 := by
  simp [sgn, h]

lemma sgn_of_neg (t : ℝ) (h : t < 0) : sgn t = -1 := by
  simp [sgn, h, asymm h]

/-- C8: for a polygon whose vertices lie in the electrode plane and a
field point in that plane (`z = 0`), the signed-`|z|` arctangent
normalisation makes every per-edge term `arctan2(0, 0) = 0`, so the
order-0 polygon kernel value is the well-defined number `0` - no division
is performed and no NaN arises. -/
theorem C8_polygon_in_plane (path : List V3) (fp : V3)
    (hv : ∀ v ∈ path, v.z = 0) (hfp : fp.z = 0) :
    polygonV0 path fp = 0 := by
  unfold polygonV0
  rw [List.sum_eq_zero, zero_div]
  intro t ht
  obtain ⟨e, he, rfl⟩ := List.mem_map.1 ht
  obtain ⟨h1, h2⟩ := List.of_mem_zip he
  rw [List.mem_rotate] at h2
  have hz1 : e.1.z = 0 := hv e.1 h1
  have hz2 : e.2.z = 0 := hv e.2 h2
  simp [polygon_edge0, hz1, hz2, hfp, atan2_zero_zero]

theorem C8_polygon_in_plane_witness :
    polygonV0 [⟨0, 0, 0⟩, ⟨1, 0, 0⟩, ⟨1, 1, 0⟩, ⟨0, 1, 0⟩] ⟨5, 5, 0⟩ = 0 := by
  refine C8_polygon_in_plane _ _ ?_ rfl
  intro v hv
  simp only [List.mem_cons, List.not_mem_nil, or_false] at hv
  rcases hv with rfl | rfl | rfl | rfl <;> rfl

lemma sq_ccw_pos : 0 < polygonV0 [⟨0, 0, 0⟩, ⟨1, 0, 0⟩, ⟨1, 1, 0⟩, ⟨0, 1, 0⟩] ⟨0, 0, 1⟩ := by
  unfold polygonV0
  rw [show ([⟨0, 0, 0⟩, ⟨1, 0, 0⟩, ⟨1, 1, 0⟩, ⟨0, 1, 0⟩] : List V3).rotate 1
      = [⟨1, 0, 0⟩, ⟨1, 1, 0⟩, ⟨0, 1, 0⟩, ⟨0, 0, 0⟩] from rfl]
  simp only [List.zip_cons_cons, List.zip_nil_right, List.map_cons, List.map_nil,
    List.sum_cons, List.sum_nil]
  have e1 : polygon_edge0 ⟨0, 0, 1⟩ (⟨0, 0, 0⟩, ⟨1, 0, 0⟩) = 0 := by
    unfold polygon_edge0 nrm3
    norm_num
    exact atan2_zero_of_pos _ (by positivity)
  have e2 : 0 < polygon_edge0 ⟨0, 0, 1⟩ (⟨1, 0, 0⟩, ⟨1, 1, 0⟩) := by
    unfold polygon_edge0 nrm3
    norm_num
    exact atan2_pos_of_pos _ _ one_pos (by positivity)
  have e3 : 0 < polygon_edge0 ⟨0, 0, 1⟩ (⟨1, 1, 0⟩, ⟨0, 1, 0⟩) := by
    unfold polygon_edge0 nrm3
    norm_num
    exact atan2_pos_of_pos _ _ one_pos (by positivity)
  have e4 : polygon_edge0 ⟨0, 0, 1⟩ (⟨0, 1, 0⟩, ⟨0, 0, 0⟩) = 0 := by
    unfold polygon_edge0 nrm3
    norm_num
    exact atan2_zero_of_pos _ (by positivity)
  rw [e1, e4]
  have hsum : 0 < (0:ℝ) + (polygon_edge0 ⟨0, 0, 1⟩ (⟨1, 0, 0⟩, ⟨1, 1, 0⟩) +
      (polygon_edge0 ⟨0, 0, 1⟩ (⟨1, 1, 0⟩, ⟨0, 1, 0⟩) + (0 + 0))) := by linarith
  exact div_pos hsum Real.pi_pos

lemma sq_cw_neg : polygonV0 [⟨0, 1, 0⟩, ⟨1, 1, 0⟩, ⟨1, 0, 0⟩, ⟨0, 0, 0⟩] ⟨0, 0, 1⟩ < 0 := by
  unfold polygonV0
  rw [show ([⟨0, 1, 0⟩, ⟨1, 1, 0⟩, ⟨1, 0, 0⟩, ⟨0, 0, 0⟩] : List V3).rotate 1
      = [⟨1, 1, 0⟩, ⟨1, 0, 0⟩, ⟨0, 0, 0⟩, ⟨0, 1, 0⟩] from rfl]
  simp only [List.zip_cons_cons, List.zip_nil_right, List.map_cons, List.map_nil,
    List.sum_cons, List.sum_nil]
  have e1 : polygon_edge0 ⟨0, 0, 1⟩ (⟨0, 1, 0⟩, ⟨1, 1, 0⟩) < 0 := by
    unfold polygon_edge0 nrm3
    norm_num
    exact atan2_neg_of_pos _ _ (by norm_num) (by positivity)
  have e2 : polygon_edge0 ⟨0, 0, 1⟩ (⟨1, 1, 0⟩, ⟨1, 0, 0⟩) < 0 := by
    unfold polygon_edge0 nrm3
    norm_num
    exact atan2_neg_of_pos _ _ (by norm_num) (by positivity)
  have e3 : polygon_edge0 ⟨0, 0, 1⟩ (⟨1, 0, 0⟩, ⟨0, 0, 0⟩) = 0 := by
    unfold polygon_edge0 nrm3
    norm_num
    exact atan2_zero_of_pos _ (by positivity)
  have e4 : polygon_edge0 ⟨0, 0, 1⟩ (⟨0, 0, 0⟩, ⟨0, 1, 0⟩) = 0 := by
    unfold polygon_edge0 nrm3
    norm_num
    exact atan2_zero_of_pos _ (by positivity)
  rw [e3, e4]
  have hsum : polygon_edge0 ⟨0, 0, 1⟩ (⟨0, 1, 0⟩, ⟨1, 1, 0⟩) +
      (polygon_edge0 ⟨0, 0, 1⟩ (⟨1, 1, 0⟩, ⟨1, 0, 0⟩) + ((0:ℝ) + (0 + 0))) < 0 := by linarith
  exact div_neg_of_neg_of_pos hsum Real.pi_pos

/-- C6 counterexample: a degenerate polygon with three collinear vertices
has planar area 0, and `orientations()` reports 0 for it - neither `+1`
nor `-1`, and not a value equal to a nonzero area sign. -/
theorem C6_counterexample :
    polygon_orientations [[⟨0, 0, 0⟩, ⟨1, 0, 0⟩, ⟨2, 0, 0⟩]] = [0]
    ∧ polygon_orientations [[⟨0, 0, 0⟩, ⟨1, 0, 0⟩, ⟨2, 0, 0⟩]] ≠ [1]
    ∧ polygon_orientations [[⟨0, 0, 0⟩, ⟨1, 0, 0⟩, ⟨2, 0, 0⟩]] ≠ [-1]
    ∧ path_area [⟨0, 0, 0⟩, ⟨1, 0, 0⟩, ⟨2, 0, 0⟩] = 0 := by
  have hv : polygonV0 [⟨0, 0, 0⟩, ⟨1, 0, 0⟩, ⟨2, 0, 0⟩] ⟨0, 0, 1⟩ = 0 := by
    unfold polygonV0
    rw [show ([⟨0, 0, 0⟩, ⟨1, 0, 0⟩, ⟨2, 0, 0⟩] : List V3).rotate 1
        = [⟨1, 0, 0⟩, ⟨2, 0, 0⟩, ⟨0, 0, 0⟩] from rfl]
    simp only [List.zip_cons_cons, List.zip_nil_right, List.map_cons, List.map_nil,
      List.sum_cons, List.sum_nil]
    have e1 : polygon_edge0 ⟨0, 0, 1⟩ (⟨0, 0, 0⟩, ⟨1, 0, 0⟩) = 0 := by
      unfold polygon_edge0 nrm3
      norm_num
      exact atan2_zero_of_pos _ (by positivity)
    have e2 : polygon_edge0 ⟨0, 0, 1⟩ (⟨1, 0, 0⟩, ⟨2, 0, 0⟩) = 0 := by
      unfold polygon_edge0 nrm3
      norm_num
      exact atan2_zero_of_pos _ (by positivity)
    have e3 : polygon_edge0 ⟨0, 0, 1⟩ (⟨2, 0, 0⟩, ⟨0, 0, 0⟩) = 0 := by
      unfold polygon_edge0 nrm3
      norm_num
      exact atan2_zero_of_pos _ (by positivity)
    rw [e1, e2, e3]
    norm_num
  have hs : polygon_orientations [[⟨0, 0, 0⟩, ⟨1, 0, 0⟩, ⟨2, 0, 0⟩]] = [0] := by
    unfold polygon_orientations
    simp only [List.map_cons, List.map_nil, hv]
    rw [show sgn 0 = 0 from by simp [sgn]]
  refine ⟨hs, by rw [hs]; simp, by rw [hs]; simp, ?_⟩
  unfold path_area
  rw [show ([⟨0, 0, 0⟩, ⟨1, 0, 0⟩, ⟨2, 0, 0⟩] : List V3).rotate 1
      = [⟨1, 0, 0⟩, ⟨2, 0, 0⟩, ⟨0, 0, 0⟩] from rfl]
  simp only [List.zip_cons_cons, List.zip_nil_right, List.map_cons, List.map_nil,
    List.sum_cons, List.sum_nil]
  norm_num

/-- C6 amended: `orientations()` of a point electrode is `+1` for every
primitive; for a polygon electrode it is the sign (`+1`, `0`, or `-1`) of
the bare order-0 kernel value at the probe point `(0, 0, 1)`; in
particular the counter-clockwise unit square reports `+1` and the same
square with reversed vertex order reports `-1` (matching the sign of their
planar areas). -/
theorem C6_orientations :
    (∀ areas : List ℝ, point_orientations areas = areas.map (fun _ => 1))
    ∧ (∀ paths : List (List V3),
        polygon_orientations paths = paths.map (fun p => sgn (polygonV0 p ⟨0, 0, 1⟩)))
    ∧ polygon_orientations [[⟨0, 0, 0⟩, ⟨1, 0, 0⟩, ⟨1, 1, 0⟩, ⟨0, 1, 0⟩]] = [1]
    ∧ polygon_orientations [[⟨0, 1, 0⟩, ⟨1, 1, 0⟩, ⟨1, 0, 0⟩, ⟨0, 0, 0⟩]] = [-1]
    ∧ path_area [⟨0, 0, 0⟩, ⟨1, 0, 0⟩, ⟨1, 1, 0⟩, ⟨0, 1, 0⟩] = 1
    ∧ path_area [⟨0, 1, 0⟩, ⟨1, 1, 0⟩, ⟨1, 0, 0⟩, ⟨0, 0, 0⟩] = -1 := by
  refine ⟨fun areas => rfl, fun paths => rfl, ?_, ?_, ?_, ?_⟩
  · unfold polygon_orientations
    simp only [List.map_cons, List.map_nil]
    rw [sgn_of_pos _ sq_ccw_pos]
  · unfold polygon_orientations
    simp only [List.map_cons, List.map_nil]
    rw [sgn_of_neg _ sq_cw_neg]
  · unfold path_area
    rw [show ([⟨0, 0, 0⟩, ⟨1, 0, 0⟩, ⟨1, 1, 0⟩, ⟨0, 1, 0⟩] : List V3).rotate 1
        = [⟨1, 0, 0⟩, ⟨1, 1, 0⟩, ⟨0, 1, 0⟩, ⟨0, 0, 0⟩] from rfl]
    simp only [List.zip_cons_cons, List.zip_nil_right, List.map_cons, List.map_nil,
      List.sum_cons, List.sum_nil]
    norm_num
  · unfold path_area
    rw [show ([⟨0, 1, 0⟩, ⟨1, 1, 0⟩, ⟨1, 0, 0⟩, ⟨0, 0, 0⟩] : List V3).rotate 1
        = [⟨1, 1, 0⟩, ⟨1, 0, 0⟩, ⟨0, 0, 0⟩, ⟨0, 1, 0⟩] from rfl]
    simp only [List.zip_cons_cons, List.zip_nil_right, List.map_cons, List.map_nil,
      List.sum_cons, List.sum_nil]
    norm_num

/-- C9 counterexample: the default pixel factors of a polygon electrode
are the constant 1 for every path, independent of the paths' planar areas
(here areas 1 and 4) - not area-normalized values. -/
theorem C9_counterexample :
    polygon_pixel_factors_default
      [[⟨0, 0, 0⟩, ⟨1, 0, 0⟩, ⟨1, 1, 0⟩, ⟨0, 1, 0⟩],
       [⟨0, 0, 0⟩, ⟨2, 0, 0⟩, ⟨2, 2, 0⟩, ⟨0, 2, 0⟩]] = [1, 1]
    ∧ path_area [⟨0, 0, 0⟩, ⟨1, 0, 0⟩, ⟨1, 1, 0⟩, ⟨0, 1, 0⟩] = 1
    ∧ path_area [⟨0, 0, 0⟩, ⟨2, 0, 0⟩, ⟨2, 2, 0⟩, ⟨0, 2, 0⟩] = 4 := by
  refine ⟨rfl, ?_, ?_⟩
  · unfold path_area
    rw [show ([⟨0, 0, 0⟩, ⟨1, 0, 0⟩, ⟨1, 1, 0⟩, ⟨0, 1, 0⟩] : List V3).rotate 1
        = [⟨1, 0, 0⟩, ⟨1, 1, 0⟩, ⟨0, 1, 0⟩, ⟨0, 0, 0⟩] from rfl]
    simp only [List.zip_cons_cons, List.zip_nil_right, List.map_cons, List.map_nil,
      List.sum_cons, List.sum_nil]
    norm_num
  · unfold path_area
    rw [show ([⟨0, 0, 0⟩, ⟨2, 0, 0⟩, ⟨2, 2, 0⟩, ⟨0, 2, 0⟩] : List V3).rotate 1
        = [⟨2, 0, 0⟩, ⟨2, 2, 0⟩, ⟨0, 2, 0⟩, ⟨0, 0, 0⟩] from rfl]
    simp only [List.zip_cons_cons, List.zip_nil_right, List.map_cons, List.map_nil,
      List.sum_cons, List.sum_nil]
    norm_num

/-- C9 amended: the pixel-factor vector always has length equal to the
number of primitives; when not explicitly set the factors default to 1 for
every primitive of a point electrode (whose default areas are also 1) and
to 1 for every path of a polygon electrode. -/
theorem C9_pixel_factor_defaults :
    (∀ areas : List ℝ, (point_pixel_factors_default areas).length = areas.length)
    ∧ (∀ points : List V3, (point_areas_default points).length = points.length)
    ∧ (∀ points : List V3,
        (point_pixel_factors_default (point_areas_default points)).length = points.length)
    ∧ (∀ (areas : List ℝ) (f : ℝ), f ∈ point_pixel_factors_default areas → f = 1)
    ∧ (∀ paths : List (List V3),
        (polygon_pixel_factors_default paths).length = paths.length)
    ∧ (∀ (paths : List (List V3)) (f : ℝ), f ∈ polygon_pixel_factors_default paths → f = 1) := by
  refine ⟨fun areas => ?_, fun points => ?_, fun points => ?_,
    fun areas f hf => ?_, fun paths => ?_, fun paths f hf => ?_⟩
  · simp [point_pixel_factors_default]
  · simp [point_areas_default]
  · simp [point_pixel_factors_default, point_areas_default]
  · obtain ⟨_, _, rfl⟩ := List.mem_map.1 hf
    rfl
  · simp [polygon_pixel_factors_default]
  · obtain ⟨_, _, rfl⟩ := List.mem_map.1 hf
    rfl

/-- C7: the RF pseudopotential is `voltage_rf**2` times the summed squared
order-1 potential; its gradient and curvature follow the product rule on
the squared-gradient form, each obtained from one simultaneous potential
evaluation of orders `{1}`, `{1, 2}` and `{1, 2, 3}` respectively. -/
theorem C7_pseudo_quadratic (M : RfModel) (fp : V3) :
    pseudo_potential M fp = M.voltage_rf^2 * ∑ i, (M.pot1 fp i)^2
    ∧ (∀ j, pseudo_gradient M fp j
        = 2 * M.voltage_rf^2 * ∑ i, M.pot1 fp i * M.pot2 fp i j)
    ∧ (∀ j k, pseudo_curvature M fp j k
        = 2 * M.voltage_rf^2
          * ∑ i, (M.pot2 fp i j * M.pot2 fp i k + M.pot1 fp i * M.pot3 fp i j k))
    ∧ mpotential M fp [1] = [PTensor.o1 (M.pot1 fp)]
    ∧ mpotential M fp [1, 2] = [PTensor.o1 (M.pot1 fp), PTensor.o2 (M.pot2 fp)]
    ∧ mpotential M fp [1, 2, 3]
        = [PTensor.o1 (M.pot1 fp), PTensor.o2 (M.pot2 fp), PTensor.o3 (M.pot3 fp)] := by
  refine ⟨?_, fun j => ?_, fun j k => ?_, rfl, rfl, rfl⟩
  · show M.voltage_rf^2 * ∑ i, (M.pot1 fp i)^2 = _
    rfl
  · show M.voltage_rf^2*2* ∑ i, M.pot1 fp i * M.pot2 fp i j = _
    ring
  · show M.voltage_rf^2*2* ∑ i, (M.pot2 fp i j * M.pot2 fp i k
        + M.pot1 fp i * M.pot3 fp i j k) = _
    ring

/-- C2: for objective rows `B` with targets `b`, `optimize` forms
`g = b * pinv(B).T` from the supplied Moore-Penrose pseudo-inverse,
`B1 = B - b.T*g/(g*g.T)`, drops exactly the last row of `B1`, appends the
equality constraint `B1*p == 0` to the collected constraints, hands the
objective `g` (to be maximised) and the constraints to the convex solver,
and returns `(p, c)` with `c = (p*g.T)/(g*g.T)`. -/
theorem C2_optimize_pipeline {α : Type} (pinv : List (List ℝ) → List (List ℝ))
    (solver : List ℝ → List (OptCtr α) → List ℝ) (cs : List (OptConstraint α))
    (hobj : (cs.map (fun c => c.objective)).flatten ≠ []) :
    ∃ B b g B1 p,
      B = ((cs.map (fun c => c.objective)).flatten).map Prod.fst
      ∧ b = ((cs.map (fun c => c.objective)).flatten).map Prod.snd
      ∧ g = rowVecMul b (pinv B).transpose
      ∧ B1 = matSub B (outerDiv b g (dotl g g))
      ∧ p = solver g (((cs.map (fun c => c.constraints)).flatten).map OptCtr.user
          ++ [OptCtr.eqZero B1.dropLast])
      ∧ B1.dropLast.length + 1 = B1.length
      ∧ optimize pinv solver cs = (p, dotl p g / dotl g g) := by
  refine ⟨_, _, _, _, _, rfl, rfl, rfl, rfl, rfl, ?_, rfl⟩
  have h1 : 0 < ((cs.map (fun c => c.objective)).flatten).length :=
    List.length_pos.2 hobj
  simp only [matSub, outerDiv, List.length_dropLast, List.length_zipWith, List.length_map]
  omega

theorem C2_optimize_pipeline_witness :
    ∃ B b g B1 p,
      B = ((([⟨[([1], 1)], []⟩] : List (OptConstraint Unit)).map
          (fun c => c.objective)).flatten).map Prod.fst
      ∧ b = ((([⟨[([1], 1)], []⟩] : List (OptConstraint Unit)).map
          (fun c => c.objective)).flatten).map Prod.snd
      ∧ g = rowVecMul b ((fun _ => [[1]]) B).transpose
      ∧ B1 = matSub B (outerDiv b g (dotl g g))
      ∧ p = (fun _ _ => [1]) g
          (((([⟨[([1], 1)], []⟩] : List (OptConstraint Unit)).map
            (fun c => c.constraints)).flatten).map OptCtr.user
            ++ [OptCtr.eqZero B1.dropLast])
      ∧ B1.dropLast.length + 1 = B1.length
      ∧ optimize (fun _ => [[1]]) (fun _ _ => [1])
          ([⟨[([1], 1)], []⟩] : List (OptConstraint Unit)) = (p, dotl p g / dotl g g) :=
  C2_optimize_pipeline (fun _ => [[1]]) (fun _ _ => [1]) [⟨[([1], 1)], []⟩] (by simp)


lemma optimizeE_empty {α : Type} (pinv : NMat → Except NpError NMat)
    (solver : NMat → List (OptCtrE α) → List ℝ) :
    optimizeE pinv solver []
      = match pinv (npMatrix []) with
        | Except.error e => Except.error e
        | Except.ok _ => Except.error NpError.valueError := by
  have h0 : optimizeE pinv solver [] = (do
      let Bp ← pinv (npMatrix [])
      let g ← matMulE (npRowMatrix []) Bp.transposeE
      let ggT ← matMulE g g.transposeE
      let bTg ← matMulE (npRowMatrix []).transposeE g
      let B1 ← matSubE (npMatrix []) (divByScalarM bTg ggT)
      let B1d := dropLastRow B1
      let p := solver g [OptCtrE.eqZero B1d]
      let cNum ← matMulE (npColMatrix p).transposeE g.transposeE
      Except.ok (p, (divByScalarM cNum ggT).entry 0 0)) := rfl
  rw [h0]
  rcases hM : pinv (npMatrix []) with e | M
  · simp [hM, Except.instMonad, Except.bind]
  · simp only [hM]
    by_cases hc : M.cols = 0
    · simp [matMulE, matSubE, divByScalarM, NMat.transposeE, npMatrix, npRowMatrix, hc,
        Except.instMonad, Except.bind]
    · have hc2 : ¬(0 = M.cols) := fun h => hc h.symm
      simp [matMulE, NMat.transposeE, npMatrix, npRowMatrix, hc, hc2,
        Except.instMonad, Except.bind]

/-- C5 counterexample: with the pseudo-inverse behaving as numpy's
`np.linalg.pinv` does on the empty `(1, 0)` matrix (it raises a
`LinAlgError`), `optimize` called with zero objective rows proceeds into
the pseudo-inverse step and aborts there with that `LinAlgError` - it
does not fail with an UnderconstrainedOptimization condition before the
pseudo-inverse step, which is what the claim asserts. -/
theorem C5_empty_pinv_raises :
    optimizeE (α := Unit)
      (fun M => if M.cols = 0 then Except.error NpError.linAlgError
        else Except.ok M.transposeE)
      (fun _ _ => []) [] = Except.error NpError.linAlgError := by
  rw [optimizeE_empty]
  rfl

/-- C5 amended: `optimize` performs no zero-objective-rows check: it
always proceeds to the pseudo-inverse step, and with zero objective rows
the run aborts inside the numpy pipeline - either `pinv` itself raises on
the empty `(1, 0)` matrix and that error propagates, or, whatever matrix
`pinv` returns, a subsequent shape-checked matrix operation raises a
`ValueError`.  In every case no result pair is returned and the convex
solver's behaviour is never consulted (the outcome is independent of the
solver); no UnderconstrainedOptimization condition exists in the code. -/
theorem C5_empty_objective_fails {α : Type} (pinv : NMat → Except NpError NMat)
    (solver solver' : NMat → List (OptCtrE α) → List ℝ) :
    (∀ res : List ℝ × ℝ, optimizeE pinv solver [] ≠ Except.ok res)
    ∧ (∀ e : NpError, pinv (npMatrix []) = Except.error e →
        optimizeE pinv solver [] = Except.error e)
    ∧ (∀ M : NMat, pinv (npMatrix []) = Except.ok M →
        optimizeE pinv solver [] = Except.error NpError.valueError)
    ∧ optimizeE pinv solver [] = optimizeE pinv solver' [] := by
  refine ⟨?_, ?_, ?_, ?_⟩
  · intro res h
    rw [optimizeE_empty] at h
    rcases hM : pinv (npMatrix []) with e | M <;> rw [hM] at h <;> simp at h
  · intro e he
    rw [optimizeE_empty, he]
  · intro M hM
    rw [optimizeE_empty, hM]
  · rw [optimizeE_empty, optimizeE_empty]
